import Mathlib

/-!
Verification of the disaggregated-memory B+tree engine
(src/sst/elements/rdmaNic/computeServer.{h,cc} and memoryServer.{h,cc}).

The development shallowly embeds the data model and the operations of the
compute-side B+tree engine and of the memory-server byte store:

* byte-level node codec (serialize_node / deserialize_node),
* node-address allocation (allocate_node_address),
* child selection during traversal (get_child_index_for_key),
* the leaf handler and the asynchronous split routines,
* the event-driven engine step (read / write completions),
* the memory-server request handlers and the node-lock table.

Machine integers are modelled as Nat with explicit bounds where overflow
could matter; byte buffers are lists of Nat (each byte < 256 by
construction of the serializer); C++ std::map / std::unordered_map are
modelled as functions into Option.  Array-mutating loops are modelled by
take / drop decompositions that yield the same element-by-element result
as the loops in the source.
-/

namespace RdmaBTree

/-- Little-endian encoding of a natural number into k bytes, the layout
std::memcpy produces for uint32_t and uint64_t fields on a little-endian
machine. -/
def toLE (n : Nat) : Nat → List Nat
  | 0 => []
  | k + 1 => (n % 256) :: toLE (n / 256) k

/-- Little-endian decoding of a byte list into a natural number. -/
def fromLE : List Nat → Nat
  | [] => 0
  | b :: bs => b + 256 * fromLE bs

/-- Flatten a list of 64-bit words into its byte serialization, eight bytes
per word, as the serializer memcpy of a uint64_t array produces. -/
def u64Bytes (xs : List Nat) : List Nat :=
  xs.flatMap (fun x => toLE x 8)

/-- Read k bytes of a buffer starting at a byte offset (the source range of a
memcpy out of the receive buffer). -/
def readBytes (data : List Nat) (off k : Nat) : List Nat :=
  (data.drop off).take k

/-- Read one little-endian 64-bit word at a byte offset. -/
def readU64 (data : List Nat) (off : Nat) : Nat :=
  fromLE (readBytes data off 8)

/-- Read cnt consecutive little-endian 64-bit words starting at a byte
offset, the effect of memcpy-ing cnt uint64_t values out of the buffer. -/
def readU64s (data : List Nat) (off : Nat) : Nat → List Nat
  | 0 => []
  | c + 1 => readU64 data off :: readU64s data (off + 8) c

/-- Overwrite the front of dst with src, keeping the tail of dst: the effect
of memcpy-ing src.length elements into the start of array dst. -/
def copyInto (dst src : List Nat) : List Nat :=
  src ++ dst.drop src.length

/-- One byte of the buffer at a byte offset, zero when past the end (the
source of the one-byte memcpy into the bool field). -/
def byteAt (data : List Nat) (off : Nat) : Nat :=
  (data.drop off).headD 0

/-- Point update of a map modelled as a function into Option: insert when
the new value is some, erase when it is none. -/
def updMap {α : Type} (m : Nat → Option α) (k : Nat) (v : Option α) :
    Nat → Option α :=
  fun r => if r = k then v else m r

/-- BTreeNode of computeServer.h: fixed-capacity key/value/children arrays
(sized by the fanout) plus metadata. -/
structure BTreeNode where
  keys : List Nat
  values : List Nat
  children : List Nat
  num_keys : Nat
  fanout : Nat
  is_leaf : Bool
  node_address : Nat
deriving Repr, DecidableEq

/-- The BTreeNode constructor: arrays resized to the fanout (children to
fanout + 1) and zero-filled, num_keys = 0, is_leaf = true, address 0. -/
def BTreeNode.init (fanout_size : Nat) : BTreeNode where
  keys := List.replicate fanout_size 0
  values := List.replicate fanout_size 0
  children := List.replicate (fanout_size + 1) 0
  num_keys := 0
  fanout := fanout_size
  is_leaf := true
  node_address := 0

/-- get_serialized_node_size: 2 u32 + 1 bool + 1 u64 of metadata, fanout u64
keys, fanout u64 values, fanout + 1 u64 children. -/
def get_serialized_node_size (btree_fanout : Nat) : Nat :=
  4 * 2 + 1 + 8 + btree_fanout * 8 + btree_fanout * 8 + (btree_fanout + 1) * 8

/-- serialize_node: a zero-filled buffer of the configured node size into
which the fields are memcpy-ed back to back: num_keys, fanout, is_leaf,
node_address, then the full keys, values and children arrays (the node's own
fanout field governs the array extents, exactly as node.fanout does in the
source). -/
def serialize_node (btree_fanout : Nat) (node : BTreeNode) : List Nat :=
  let body := toLE node.num_keys 4 ++ toLE node.fanout 4
    ++ [if node.is_leaf then 1 else 0]
    ++ toLE node.node_address 8
    ++ u64Bytes (node.keys.take node.fanout)
    ++ u64Bytes (node.values.take node.fanout)
    ++ u64Bytes (node.children.take (node.fanout + 1))
  body ++ List.replicate (get_serialized_node_size btree_fanout - body.length) 0

/-- deserialize_node: starts from a freshly constructed node of the
configured fanout, returns it unchanged when the buffer is shorter than the
17-byte metadata header, otherwise reads the four metadata fields and then
the key / value / children prefixes under the same guards as the source; the
offset advance past the keys region sits inside the keys guard, so a buffer
with num_keys = 0 leaves the cursor at the header end. -/
def deserialize_node (btree_fanout : Nat) (data : List Nat) : BTreeNode :=
  let node := BTreeNode.init btree_fanout
  if data.length < 17 then node
  else
    let nk := fromLE (readBytes data 0 4)
    let fan := fromLE (readBytes data 4 4)
    let leaf : Bool := byteAt data 8 != 0
    let addr := fromLE (readBytes data 9 8)
    let keysOff :=
      if 0 < nk ∧ 17 + nk * 8 ≤ data.length then
        (copyInto node.keys (readU64s data 17 nk), 17 + fan * 8)
      else (node.keys, 17)
    let off1 := keysOff.2
    let values :=
      if leaf = true ∧ 0 < nk ∧ off1 + nk * 8 ≤ data.length then
        copyInto node.values (readU64s data off1 nk)
      else node.values
    let off2 := off1 + fan * 8
    let children :=
      if leaf = false ∧ off2 + (nk + 1) * 8 ≤ data.length then
        copyInto node.children (readU64s data off2 (nk + 1))
      else node.children
    { keys := keysOff.1, values := values, children := children,
      num_keys := nk, fanout := fan, is_leaf := leaf, node_address := addr }

/-- Well-formed node for a tree configured with fanout f: array capacities
match the fanout and every machine integer fits its C++ width. -/
def BTreeNode.WF (f : Nat) (n : BTreeNode) : Prop :=
  n.fanout = f ∧ n.keys.length = f ∧ n.values.length = f ∧
  n.children.length = f + 1 ∧ n.num_keys ≤ f ∧ f < 2 ^ 32 ∧
  n.node_address < 2 ^ 64 ∧ (∀ x ∈ n.keys, x < 2 ^ 64) ∧
  (∀ x ∈ n.values, x < 2 ^ 64) ∧ (∀ x ∈ n.children, x < 2 ^ 64)

instance (f : Nat) (n : BTreeNode) : Decidable (BTreeNode.WF f n) := by
  unfold BTreeNode.WF
  infer_instance

/-- Remote address-space constants of computeServer.cc. -/
def MEMORY_BASE_ADDRESS : Nat := 0x10000000

/-- 16 MiB slab per memory server. -/
def MEMORY_SERVER_SIZE : Nat := 0x1000000

/-- 64 KiB per internal level. -/
def BTREE_LEVEL1_OFFSET : Nat := 0x10000

/-- Leaves start 2 MiB into a slab. -/
def BTREE_LEAF_OFFSET : Nat := 0x200000

/-- allocate_node_address: memory server chosen by node_id modulo the number
of memory nodes; level 0 at offset 0, internal levels at 64 KiB times the
level plus (node_id mod 10000) node sizes, leaves at the 2 MiB offset plus
(node_id mod 100000) node sizes.  tree_height - 1 uses Nat subtraction,
which agrees with the uint32_t source for the tree heights the engine ever
holds (tree_height is at least 1 from initialization on). -/
def allocate_node_address (num_memory_nodes tree_height btree_fanout
    node_id level : Nat) : Nat :=
  let memory_server := node_id % num_memory_nodes
  let base_address := MEMORY_BASE_ADDRESS + memory_server * MEMORY_SERVER_SIZE
  let offset :=
    if level = 0 then 0
    else if level < tree_height - 1 then
      BTREE_LEVEL1_OFFSET * level
        + (node_id % 10000) * get_serialized_node_size btree_fanout
    else
      BTREE_LEAF_OFFSET
        + (node_id % 100000) * get_serialized_node_size btree_fanout
  base_address + offset

/-- The scan loop of get_child_index_for_key over the meaningful key list:
first index whose key is strictly greater than the search key, and the list
length when there is none. -/
def childScan (key : Nat) : List Nat → Nat
  | [] => 0
  | k :: ks => if key < k then 0 else childScan key ks + 1

/-- get_child_index_for_key: 0 for an empty node, otherwise the scan over
the first num_keys keys. -/
def get_child_index_for_key (node : BTreeNode) (key : Nat) : Nat :=
  if node.num_keys = 0 then 0
  else childScan key (node.keys.take node.num_keys)

/-- The insertion-position while-loop used by the leaf insert, the parent
insert and both splits: number of leading meaningful keys strictly below the
new key. -/
def insertScan (key : Nat) : List Nat → Nat
  | [] => 0
  | k :: ks => if k < key then insertScan key ks + 1 else 0

/-- Effect on a fixed array of the shift-right loop followed by a store: the
first cnt slots are treated as occupied, slot pos receives x, slots
pos..cnt-1 move one to the right, slots beyond cnt stay as they were. -/
def arrayInsertAt (l : List Nat) (cnt pos x : Nat) : List Nat :=
  l.take pos ++ [x] ++ (l.drop pos).take (cnt - pos) ++ l.drop (cnt + 1)

/-- Effect of assembling the temporary all_keys / all_values / all_children
vector of a split: a zero-initialized vector of the given size whose first
cnt + 1 slots hold the first cnt occupied slots of arr with x inserted at
position pos. -/
def assembleInsert (arr : List Nat) (cnt pos x size : Nat) : List Nat :=
  arr.take pos ++ [x] ++ (arr.drop pos).take (cnt - pos)
    ++ List.replicate (size - (cnt + 1)) 0

/-- Effect of the copy-back loops of a split: the first cnt slots of arr are
overwritten with the first cnt elements of src, the rest of arr is kept. -/
def overwriteTo (arr src : List Nat) (cnt : Nat) : List Nat :=
  src.take cnt ++ arr.drop cnt

/-- The in-leaf insert of handle_leaf_operation when the leaf has space:
scan for the position, update the value in place on an exact key match,
otherwise shift and insert and bump num_keys. -/
def leaf_insert_with_space (leaf : BTreeNode) (key value : Nat) : BTreeNode :=
  let insert_pos := insertScan key (leaf.keys.take leaf.num_keys)
  if insert_pos < leaf.num_keys ∧ leaf.keys.getD insert_pos 0 = key then
    { leaf with values := leaf.values.set insert_pos value }
  else
    { leaf with
      keys := arrayInsertAt leaf.keys leaf.num_keys insert_pos key,
      values := arrayInsertAt leaf.values leaf.num_keys insert_pos value,
      num_keys := leaf.num_keys + 1 }

/-- The pure content computation of split_leaf_async (steps 2, 3 and 4 of
the source): merge the leaf with the new pair into the temporary arrays,
keep the first fanout / 2 pairs in the old leaf, move the rest into a fresh
leaf at the supplied address. -/
def split_leaf_compute (btree_fanout : Nat) (old_leaf : BTreeNode)
    (new_key new_value new_leaf_address : Nat) : BTreeNode × BTreeNode :=
  let split_point := btree_fanout / 2
  let insert_pos := insertScan new_key (old_leaf.keys.take old_leaf.num_keys)
  let all_keys := assembleInsert old_leaf.keys old_leaf.num_keys insert_pos
    new_key (btree_fanout + 1)
  let all_values := assembleInsert old_leaf.values old_leaf.num_keys insert_pos
    new_value (btree_fanout + 1)
  let old2 := { old_leaf with
    num_keys := split_point,
    keys := overwriteTo old_leaf.keys all_keys split_point,
    values := overwriteTo old_leaf.values all_values split_point }
  let base := BTreeNode.init btree_fanout
  let new_count := btree_fanout + 1 - split_point
  let new_leaf := { base with
    node_address := new_leaf_address,
    is_leaf := true,
    num_keys := new_count,
    keys := overwriteTo base.keys (all_keys.drop split_point) new_count,
    values := overwriteTo base.values (all_values.drop split_point) new_count }
  (old2, new_leaf)

/-- The pure content computation of split_internal_async: merge the node
with the incoming separator and child, promote the middle key, keep the
first fanout / 2 keys (and fanout / 2 + 1 children) in the old node, move
the keys and children to the right of the promoted key into a fresh
internal node at the supplied address.  Returns (old node, new node,
promoted key). -/
def split_internal_compute (btree_fanout : Nat) (old_internal : BTreeNode)
    (new_key new_child new_internal_address : Nat) :
    BTreeNode × BTreeNode × Nat :=
  let split_point := btree_fanout / 2
  let insert_pos := insertScan new_key
    (old_internal.keys.take old_internal.num_keys)
  let all_keys := assembleInsert old_internal.keys old_internal.num_keys
    insert_pos new_key (btree_fanout + 1)
  let all_children := assembleInsert old_internal.children
    (old_internal.num_keys + 1) (insert_pos + 1) new_child (btree_fanout + 2)
  let promoted_key := all_keys.getD split_point 0
  let old2 := { old_internal with
    num_keys := split_point,
    keys := overwriteTo old_internal.keys all_keys split_point,
    children := overwriteTo old_internal.children all_children
      (split_point + 1) }
  let base := BTreeNode.init btree_fanout
  let new_count := btree_fanout - split_point
  let new_internal := { base with
    node_address := new_internal_address,
    is_leaf := false,
    num_keys := new_count,
    keys := overwriteTo base.keys (all_keys.drop (split_point + 1)) new_count,
    children := overwriteTo base.children
      (all_children.drop (split_point + 1)) (new_count + 1) }
  (old2, new_internal, promoted_key)

/-- AsyncOperation::Type of computeServer.h. -/
inductive OpType
  | TRAVERSAL
  | INSERT
  | SEARCH
  | DELETE
  | SPLIT_LEAF
  | SPLIT_INTERNAL
  | UPDATE_PARENT
deriving Repr, DecidableEq

/-- AsyncOperation::SplitPhase of computeServer.h. -/
inductive SplitPhase
  | NONE
  | WRITE_OLD_NODE
  | WRITE_NEW_NODE
  | READ_PARENT
  | UPDATE_PARENT_NODE
deriving Repr, DecidableEq

/-- AsyncOperation of computeServer.h: the per-in-flight-operation record. -/
structure AsyncOperation where
  type : OpType
  key : Nat
  value : Nat
  current_level : Nat
  current_address : Nat
  path : List BTreeNode
  start_time : Nat
  split_phase : SplitPhase
  old_node : BTreeNode
  new_node : BTreeNode
  separator_key : Nat
  parent_address : Nat
  is_root_split : Bool
deriving Repr, DecidableEq

/-- The AsyncOperation default constructor; the embedded nodes use the
BTreeNode default fanout of 16, as in the header. -/
def AsyncOperation.init : AsyncOperation where
  type := .TRAVERSAL
  key := 0
  value := 0
  current_level := 0
  current_address := 0
  path := []
  start_time := 0
  split_phase := .NONE
  old_node := BTreeNode.init 16
  new_node := BTreeNode.init 16
  separator_key := 0
  parent_address := 0
  is_root_split := false

/-- An outgoing one-sided request of the compute server, carrying the
request id the response will be matched against. -/
inductive NetRequest
  | read (addr size req_id : Nat)
  | write (addr size : Nat) (data : List Nat) (req_id : Nat)
deriving Repr, DecidableEq

/-- The compute-side engine state: tree metadata, the request-id-keyed
in-flight operation map, the parent hint map, and the counters that model
the generation of fresh request ids and node ids. -/
structure EngineState where
  root_address : Nat
  tree_height : Nat
  next_node_id : Nat
  pending_ops : Nat → Option AsyncOperation
  parent_map : Nat → Option Nat
  next_req_id : Nat

/-- The engine configuration the handlers read: fanout and the number of
memory nodes. -/
structure EngineConfig where
  btree_fanout : Nat
  num_memory_nodes : Nat
deriving Repr, DecidableEq

/-- write_node_back: serialize the node and emit an untracked write for
it. -/
def write_node_back (cfg : EngineConfig) (s : EngineState) (node : BTreeNode) :
    EngineState × List NetRequest :=
  ({ s with next_req_id := s.next_req_id + 1 },
   [NetRequest.write node.node_address
     (get_serialized_node_size cfg.btree_fanout)
     (serialize_node cfg.btree_fanout node) s.next_req_id])

/-- split_leaf_async: allocate the new leaf, compute the split contents,
record the split state on the operation (separator = first key of the new
leaf), re-address the old half when the root is being split, store the
operation under the write request for the old node and emit that write. -/
def split_leaf_async (cfg : EngineConfig) (s : EngineState)
    (op : AsyncOperation) (old_leaf : BTreeNode) (new_key new_value : Nat) :
    EngineState × List NetRequest :=
  let leaf_level := if op.is_root_split then s.tree_height
    else s.tree_height - 1
  let new_leaf_address := allocate_node_address cfg.num_memory_nodes
    s.tree_height cfg.btree_fanout s.next_node_id leaf_level
  let pair := split_leaf_compute cfg.btree_fanout old_leaf new_key new_value
    new_leaf_address
  let old2 := pair.1
  let new_leaf := pair.2
  let op2 := { op with
    type := .SPLIT_LEAF,
    split_phase := .WRITE_OLD_NODE,
    separator_key := new_leaf.keys.getD 0 0 }
  if old2.node_address = s.root_address then
    let old3 := { old2 with
      node_address := allocate_node_address cfg.num_memory_nodes s.tree_height
        cfg.btree_fanout (s.next_node_id + 1) leaf_level }
    let op3 := { op2 with
      is_root_split := true, old_node := old3, new_node := new_leaf }
    ({ s with
        next_node_id := s.next_node_id + 2,
        next_req_id := s.next_req_id + 1,
        pending_ops := updMap s.pending_ops s.next_req_id (some op3) },
     [NetRequest.write old3.node_address
       (get_serialized_node_size cfg.btree_fanout)
       (serialize_node cfg.btree_fanout old3) s.next_req_id])
  else
    let op3 := { op2 with
      is_root_split := false,
      parent_address :=
        if 2 ≤ op.path.length then
          (op.path.getD (op.path.length - 2)
            (BTreeNode.init cfg.btree_fanout)).node_address
        else 0,
      old_node := old2, new_node := new_leaf }
    ({ s with
        next_node_id := s.next_node_id + 1,
        next_req_id := s.next_req_id + 1,
        pending_ops := updMap s.pending_ops s.next_req_id (some op3) },
     [NetRequest.write old2.node_address
       (get_serialized_node_size cfg.btree_fanout)
       (serialize_node cfg.btree_fanout old2) s.next_req_id])

/-- split_internal_async: same phase structure as the leaf split, with the
promoted middle key as separator and the node level taken from the
operation cursor. -/
def split_internal_async (cfg : EngineConfig) (s : EngineState)
    (op : AsyncOperation) (old_internal : BTreeNode)
    (new_key new_child : Nat) : EngineState × List NetRequest :=
  let new_internal_address := allocate_node_address cfg.num_memory_nodes
    s.tree_height cfg.btree_fanout s.next_node_id op.current_level
  let triple := split_internal_compute cfg.btree_fanout old_internal new_key
    new_child new_internal_address
  let old2 := triple.1
  let new_internal := triple.2.1
  let promoted_key := triple.2.2
  let op2 := { op with
    type := .SPLIT_INTERNAL,
    split_phase := .WRITE_OLD_NODE,
    separator_key := promoted_key }
  if old2.node_address = s.root_address then
    let old3 := { old2 with
      node_address := allocate_node_address cfg.num_memory_nodes s.tree_height
        cfg.btree_fanout (s.next_node_id + 1) op.current_level }
    let op3 := { op2 with
      is_root_split := true, old_node := old3, new_node := new_internal }
    ({ s with
        next_node_id := s.next_node_id + 2,
        next_req_id := s.next_req_id + 1,
        pending_ops := updMap s.pending_ops s.next_req_id (some op3) },
     [NetRequest.write old3.node_address
       (get_serialized_node_size cfg.btree_fanout)
       (serialize_node cfg.btree_fanout old3) s.next_req_id])
  else
    let op3 := { op2 with
      is_root_split := false,
      parent_address :=
        if 2 ≤ op.path.length then
          (op.path.getD (op.path.length - 2)
            (BTreeNode.init cfg.btree_fanout)).node_address
        else 0,
      old_node := old2, new_node := new_internal }
    ({ s with
        next_node_id := s.next_node_id + 1,
        next_req_id := s.next_req_id + 1,
        pending_ops := updMap s.pending_ops s.next_req_id (some op3) },
     [NetRequest.write old2.node_address
       (get_serialized_node_size cfg.btree_fanout)
       (serialize_node cfg.btree_fanout old2) s.next_req_id])

/-- handle_split_response: the split phase machine driven by write
completions.  WRITE_OLD_NODE emits the write of the new node;
WRITE_NEW_NODE either creates and writes the new root (root split: the only
place root_address and tree_height change) or emits the parent read;
READ_PARENT and UPDATE_PARENT_NODE only log here. -/
def handle_split_response (cfg : EngineConfig) (s : EngineState)
    (op : AsyncOperation) : EngineState × List NetRequest :=
  match op.split_phase with
  | .WRITE_OLD_NODE =>
    let op2 := { op with split_phase := .WRITE_NEW_NODE }
    ({ s with
        next_req_id := s.next_req_id + 1,
        pending_ops := updMap s.pending_ops s.next_req_id (some op2) },
     [NetRequest.write op.new_node.node_address
       (get_serialized_node_size cfg.btree_fanout)
       (serialize_node cfg.btree_fanout op.new_node) s.next_req_id])
  | .WRITE_NEW_NODE =>
    if op.is_root_split then
      let new_root_addr := allocate_node_address cfg.num_memory_nodes
        s.tree_height cfg.btree_fanout s.next_node_id 0
      let base := BTreeNode.init cfg.btree_fanout
      let new_root := { base with
        node_address := new_root_addr,
        is_leaf := false,
        num_keys := 1,
        keys := base.keys.set 0 op.separator_key,
        children := (base.children.set 0 op.old_node.node_address).set 1
          op.new_node.node_address }
      ({ s with
          next_node_id := s.next_node_id + 1,
          next_req_id := s.next_req_id + 1,
          root_address := new_root_addr,
          tree_height := s.tree_height + 1 },
       [NetRequest.write new_root_addr
         (get_serialized_node_size cfg.btree_fanout)
         (serialize_node cfg.btree_fanout new_root) s.next_req_id])
    else
      if op.parent_address = 0 then
        let op2 := { op with
          split_phase := .READ_PARENT,
          current_address := s.root_address,
          current_level := 0 }
        ({ s with
            next_req_id := s.next_req_id + 1,
            pending_ops := updMap s.pending_ops s.next_req_id (some op2) },
         [NetRequest.read s.root_address
           (get_serialized_node_size cfg.btree_fanout) s.next_req_id])
      else
        let op2 := { op with split_phase := .READ_PARENT }
        ({ s with
            next_req_id := s.next_req_id + 1,
            pending_ops := updMap s.pending_ops s.next_req_id (some op2) },
         [NetRequest.read op.parent_address
           (get_serialized_node_size cfg.btree_fanout) s.next_req_id])
  | _ => (s, [])

/-- handle_write_response: a tracked write completion of a split operation
advances the split machine and drops the completed entry; anything else
only logs. -/
def handle_write_response (cfg : EngineConfig) (s : EngineState)
    (req_id : Nat) : EngineState × List NetRequest :=
  match s.pending_ops req_id with
  | some op =>
    if op.type = .SPLIT_LEAF ∨ op.type = .SPLIT_INTERNAL then
      let r := handle_split_response cfg s op
      ({ r.1 with pending_ops := updMap r.1.pending_ops req_id none }, r.2)
    else (s, [])
  | none => (s, [])

/-- handle_leaf_operation: INSERT updates or inserts in place and writes the
leaf back when there is room, otherwise starts the asynchronous leaf split;
SEARCH (and every other kind) only reads. -/
def handle_leaf_operation (cfg : EngineConfig) (s : EngineState)
    (op : AsyncOperation) (leaf : BTreeNode) : EngineState × List NetRequest :=
  match op.type with
  | .INSERT =>
    if leaf.num_keys < cfg.btree_fanout then
      write_node_back cfg s (leaf_insert_with_space leaf op.key op.value)
    else
      split_leaf_async cfg s op leaf op.key op.value
  | _ => (s, [])

/-- The shared tail of the READ_PARENT handling in handle_read_response:
insert the separator and the new-node child into the parent and write it
back, or split the parent when it is full; either way the completed read
entry is dropped. -/
def read_parent_insert (cfg : EngineConfig) (s : EngineState) (req_id : Nat)
    (parent : BTreeNode) (op : AsyncOperation) :
    EngineState × List NetRequest :=
  if parent.num_keys < cfg.btree_fanout then
    let insert_pos := insertScan op.separator_key
      (parent.keys.take parent.num_keys)
    let parent2 := { parent with
      keys := arrayInsertAt parent.keys parent.num_keys insert_pos
        op.separator_key,
      children := arrayInsertAt parent.children (parent.num_keys + 1)
        (insert_pos + 1) op.new_node.node_address,
      num_keys := parent.num_keys + 1 }
    let op2 := { op with split_phase := .UPDATE_PARENT_NODE }
    ({ s with
        next_req_id := s.next_req_id + 1,
        pending_ops := updMap
          (updMap s.pending_ops s.next_req_id (some op2)) req_id none },
     [NetRequest.write parent2.node_address
       (get_serialized_node_size cfg.btree_fanout)
       (serialize_node cfg.btree_fanout parent2) s.next_req_id])
  else
    let r := split_internal_async cfg s op parent op.separator_key
      op.new_node.node_address
    ({ r.1 with pending_ops := updMap r.1.pending_ops req_id none }, r.2)

/-- handle_read_response: an unknown request id is dropped silently; a
READ_PARENT completion either keeps descending towards the parent of the
split node or performs the parent insertion; a traversal completion appends
the node to the path and either runs the leaf handler (dropping the entry
afterwards exactly when it is still present) or descends into the chosen
child. -/
def handle_read_response (cfg : EngineConfig) (s : EngineState)
    (req_id : Nat) (data : List Nat) : EngineState × List NetRequest :=
  match s.pending_ops req_id with
  | none => (s, [])
  | some op =>
    if op.split_phase = .READ_PARENT then
      let parent := deserialize_node cfg.btree_fanout data
      if op.parent_address = 0 ∧ parent.is_leaf = false then
        let child_idx := insertScan op.separator_key
          (parent.keys.take parent.num_keys)
        let child_addr := parent.children.getD child_idx 0
        if child_addr = op.old_node.node_address ∨
            child_addr = op.new_node.node_address then
          read_parent_insert cfg s req_id parent
            { op with parent_address := parent.node_address }
        else
          let op2 := { op with
            current_level := op.current_level + 1,
            current_address := child_addr }
          ({ s with
              next_req_id := s.next_req_id + 1,
              pending_ops := updMap
                (updMap s.pending_ops s.next_req_id (some op2)) req_id none },
           [NetRequest.read child_addr
             (get_serialized_node_size cfg.btree_fanout) s.next_req_id])
      else
        read_parent_insert cfg s req_id parent op
    else
      let node := deserialize_node cfg.btree_fanout data
      let op2 := { op with path := op.path ++ [node] }
      if node.is_leaf = true ∨ s.tree_height - 1 ≤ op.current_level then
        let r := handle_leaf_operation cfg s op2 node
        if (r.1.pending_ops req_id).isSome then
          ({ r.1 with pending_ops := updMap r.1.pending_ops req_id none }, r.2)
        else r
      else
        let child_idx := get_child_index_for_key node op.key
        let child_addr := node.children.getD child_idx 0
        let op3 := { op2 with
          current_level := op.current_level + 1,
          current_address := child_addr }
        ({ s with
            parent_map := updMap s.parent_map child_addr
              (some op.current_address),
            next_req_id := s.next_req_id + 1,
            pending_ops := updMap
              (updMap s.pending_ops s.next_req_id (some op3)) req_id none },
         [NetRequest.read child_addr
           (get_serialized_node_size cfg.btree_fanout) s.next_req_id])

/-- btree_insert_async: track a fresh INSERT operation and read the root. -/
def btree_insert_async (cfg : EngineConfig) (s : EngineState)
    (key value : Nat) : EngineState × List NetRequest :=
  let op := { AsyncOperation.init with
    type := .INSERT, key := key, value := value,
    current_level := 0, current_address := s.root_address }
  ({ s with
      next_req_id := s.next_req_id + 1,
      pending_ops := updMap s.pending_ops s.next_req_id (some op) },
   [NetRequest.read s.root_address
     (get_serialized_node_size cfg.btree_fanout) s.next_req_id])

/-- btree_search_async: track a fresh SEARCH operation and read the root. -/
def btree_search_async (cfg : EngineConfig) (s : EngineState) (key : Nat) :
    EngineState × List NetRequest :=
  let op := { AsyncOperation.init with
    type := .SEARCH, key := key,
    current_level := 0, current_address := s.root_address }
  ({ s with
      next_req_id := s.next_req_id + 1,
      pending_ops := updMap s.pending_ops s.next_req_id (some op) },
   [NetRequest.read s.root_address
     (get_serialized_node_size cfg.btree_fanout) s.next_req_id])

/-- The events that drive the engine: read and write completions delivered
by handleMemoryEvent, and the two operation entry points launched by the
tick loop. -/
inductive EngineEvent
  | readResp (req_id : Nat) (data : List Nat)
  | writeResp (req_id : Nat)
  | startInsert (key value : Nat)
  | startSearch (key : Nat)

/-- One engine step: dispatch an event to its handler. -/
def stepEvent (cfg : EngineConfig) (s : EngineState) :
    EngineEvent → EngineState × List NetRequest
  | .readResp req_id data => handle_read_response cfg s req_id data
  | .writeResp req_id => handle_write_response cfg s req_id
  | .startInsert key value => btree_insert_async cfg s key value
  | .startSearch key => btree_search_async cfg s key

/-- Run a sequence of engine events, discarding the emitted requests. -/
def runEvents (cfg : EngineConfig) (s : EngineState) :
    List EngineEvent → EngineState
  | [] => s
  | e :: es => runEvents cfg (stepEvent cfg s e).1 es

/-- MemoryBlock of memoryServer.h. -/
structure MemoryBlock where
  address : Nat
  data : List Nat
  last_access : Nat
  access_count : Nat
  is_locked : Bool
  lock_owner : Nat
deriving Repr, DecidableEq

/-- NodeLock of memoryServer.h; the waiting queue is FIFO (std::queue). -/
structure NodeLock where
  lock_address : Nat
  is_locked : Bool
  owner_id : Nat
  lock_time : Nat
  waiting_queue : List Nat
deriving Repr, DecidableEq

/-- The memory-server state: the block store, the lock table and the used
byte counter. -/
structure MemServerState where
  memory_blocks : Nat → Option MemoryBlock
  node_locks : Nat → Option NodeLock
  memory_used : Nat

/-- read_memory: an existing block has its access statistics bumped and its
first size bytes returned when it is large enough; a missing block, or a
block shorter than the request, yields zeros. -/
def read_memory (now : Nat) (st : MemServerState) (address size : Nat) :
    MemServerState × List Nat :=
  match st.memory_blocks address with
  | some block =>
    let block2 := { block with
      last_access := now, access_count := block.access_count + 1 }
    let st2 := { st with
      memory_blocks := updMap st.memory_blocks address (some block2) }
    if size ≤ block2.data.length then (st2, block2.data.take size)
    else (st2, List.replicate size 0)
  | none => (st, List.replicate size 0)

/-- write_memory: update an existing block in place or create a fresh one,
counting the new bytes towards memory_used only on creation. -/
def write_memory (now : Nat) (st : MemServerState) (address : Nat)
    (data : List Nat) : MemServerState :=
  match st.memory_blocks address with
  | some block =>
    { st with
      memory_blocks := updMap st.memory_blocks address (some { block with
        data := data, last_access := now,
        access_count := block.access_count + 1 }) }
  | none =>
    { st with
      memory_blocks := updMap st.memory_blocks address (some {
        address := address, data := data, last_access := now,
        access_count := 1, is_locked := false, lock_owner := 0 }),
      memory_used := st.memory_used + data.length }

/-- acquire_lock: create-and-take an untracked lock, take a free one, or
enqueue the requester on a held one (returning false). -/
def acquire_lock (now : Nat) (st : MemServerState)
    (lock_address requester_id : Nat) : MemServerState × Bool :=
  match st.node_locks lock_address with
  | none =>
    ({ st with node_locks := updMap st.node_locks lock_address (some {
        lock_address := lock_address, is_locked := true,
        owner_id := requester_id, lock_time := now,
        waiting_queue := [] }) }, true)
  | some lock =>
    if lock.is_locked = false then
      ({ st with node_locks := updMap st.node_locks lock_address (some
          { lock with
            is_locked := true
            owner_id := requester_id
            lock_time := now }) }, true)
    else
      ({ st with node_locks := updMap st.node_locks lock_address (some
          { lock with
            waiting_queue := lock.waiting_queue ++ [requester_id] }) },
       false)

/-- release_lock: only the owner of a held, tracked lock releases it; the
head of a non-empty waiting queue is granted the lock immediately,
otherwise the lock becomes free with owner 0. -/
def release_lock (now : Nat) (st : MemServerState)
    (lock_address requester_id : Nat) : MemServerState :=
  match st.node_locks lock_address with
  | none => st
  | some lock =>
    if lock.is_locked = true ∧ lock.owner_id = requester_id then
      match lock.waiting_queue with
      | [] =>
        { st with node_locks := updMap st.node_locks lock_address (some
            { lock with is_locked := false, owner_id := 0 }) }
      | next_owner :: rest =>
        { st with node_locks := updMap st.node_locks lock_address (some
            { lock with
              is_locked := true
              owner_id := next_owner
              lock_time := now
              waiting_queue := rest }) }
    else st

/-- is_lock_address: the lock region is the [1 MiB, 2 MiB) band of the
server slab. -/
def is_lock_address (base_address address : Nat) : Bool :=
  decide (base_address + 0x100000 ≤ address ∧
    address < base_address + 0x200000)

/-- is_address_in_range: the 16 MiB slab of this server. -/
def is_address_in_range (base_address address : Nat) : Bool :=
  decide (base_address ≤ address ∧ address < base_address + 0x1000000)

/-- A remote request as it reaches a memory server. -/
inductive MemRequest
  | read (addr size : Nat)
  | write (addr : Nat) (data : List Nat)
deriving Repr, DecidableEq

/-- The externally visible reaction of the memory server to one request:
which interface index the response leaves on (and the payload for reads),
or a silent drop for an out-of-range address. -/
inductive MemResponse
  | readResp (interface_index : Nat) (data : List Nat)
  | writeResp (interface_index : Nat)
  | dropped
deriving Repr, DecidableEq

/-- handle_rdma_read: range check, then read; the response interface is the
arrival interface when its index is in range, the primary interface
otherwise. -/
def handle_rdma_read (base_address num_interfaces now : Nat)
    (st : MemServerState) (address size : Nat) (interface_id : Nat) :
    MemServerState × MemResponse :=
  if is_address_in_range base_address address = false then (st, .dropped)
  else
    let r := read_memory now st address size
    let response_interface :=
      if interface_id < num_interfaces then interface_id else 0
    (r.1, .readResp response_interface r.2)

/-- handle_rdma_write: range check, then either a lock operation (payload 0
releases, a nonzero payload acquires for that requester) or a plain store;
the completion is sent through rdma_interface, which is the primary
interface, index 0, whatever interface the request arrived on. -/
def handle_rdma_write (enable_locking : Bool)
    (base_address num_interfaces now : Nat) (st : MemServerState)
    (address : Nat) (data : List Nat) (interface_id : Nat) :
    MemServerState × MemResponse :=
  if is_address_in_range base_address address = false then (st, .dropped)
  else
    let st2 :=
      if enable_locking = true ∧ is_lock_address base_address address = true
      then
        let lock_value := fromLE (data.take 8)
        let requester_id := if lock_value = 0 then 0 else lock_value
        if lock_value = 0 then release_lock now st address requester_id
        else (acquire_lock now st address requester_id).1
      else write_memory now st address data
    (st2, .writeResp 0)

/-- handleMemoryEventFromInterface: dispatch a request that arrived on a
known interface to the read or write handler. -/
def handleMemoryEventFromInterface (enable_locking : Bool)
    (base_address num_interfaces now : Nat) (st : MemServerState)
    (req : MemRequest) (interface_id : Nat) :
    MemServerState × MemResponse :=
  match req with
  | .read addr size =>
    handle_rdma_read base_address num_interfaces now st addr size interface_id
  | .write addr data =>
    handle_rdma_write enable_locking base_address num_interfaces now st addr
      data interface_id

/-- handleMemoryEvent: the shared StandardMem handler cannot recover the
arrival interface and hardcodes interface 0 before dispatching. -/
def handleMemoryEvent (enable_locking : Bool)
    (base_address num_interfaces now : Nat) (st : MemServerState)
    (req : MemRequest) : MemServerState × MemResponse :=
  handleMemoryEventFromInterface enable_locking base_address num_interfaces
    now st req 0

theorem toLE_length (n k : Nat) : (toLE n k).length = k := by
  induction k generalizing n with
  | zero => rfl
  | succ k ih => simp [toLE, ih]

theorem fromLE_toLE (n k : Nat) : fromLE (toLE n k) = n % 256 ^ k := by
  induction k generalizing n with
  | zero => simp [toLE, fromLE, Nat.mod_one]
  | succ k ih =>
    simp only [toLE, fromLE, ih]
    have h : (256 : Nat) ^ (k + 1) = 256 * 256 ^ k := by ring
    rw [h, Nat.mod_mul]

theorem u64Bytes_length (xs : List Nat) :
    (u64Bytes xs).length = 8 * xs.length := by
  induction xs with
  | nil => rfl
  | cons x xs ih =>
    simp [u64Bytes, List.flatMap_cons, toLE_length] at *
    omega

theorem u64Bytes_append (xs ys : List Nat) :
    u64Bytes (xs ++ ys) = u64Bytes xs ++ u64Bytes ys := by
  simp [u64Bytes]

theorem readU64s_length (data : List Nat) (off c : Nat) :
    (readU64s data off c).length = c := by
  induction c generalizing off with
  | zero => rfl
  | succ c ih => simp [readU64s, ih]

theorem readU64_of_drop (data rest : List Nat) (x off : Nat)
    (hdrop : data.drop off = toLE x 8 ++ rest) (hx : x < 2 ^ 64) :
    readU64 data off = x := by
  unfold readU64 readBytes
  rw [hdrop, List.take_left' (toLE_length x 8), fromLE_toLE]
  have h : (256 : Nat) ^ 8 = 2 ^ 64 := by norm_num
  rw [h]
  exact Nat.mod_eq_of_lt hx

theorem readU64s_of_drop (data : List Nat) (xs rest : List Nat) (off : Nat)
    (hdrop : data.drop off = u64Bytes xs ++ rest)
    (hx : ∀ x ∈ xs, x < 2 ^ 64) :
    readU64s data off xs.length = xs := by
  induction xs generalizing off rest with
  | nil => rfl
  | cons x xs ih =>
    have hshape : data.drop off = toLE x 8 ++ (u64Bytes xs ++ rest) := by
      simpa [u64Bytes, List.flatMap_cons, List.append_assoc] using hdrop
    have h1 : readU64 data off = x :=
      readU64_of_drop _ _ _ _ hshape (hx x (by simp))
    have h2 : data.drop (off + 8) = u64Bytes xs ++ rest := by
      have e1 : data.drop (off + 8) = (data.drop off).drop 8 := by
        rw [List.drop_drop]
      rw [e1, hshape, List.drop_left' (toLE_length x 8)]
    have h3 := ih rest (off + 8) h2 (fun y hy => hx y (by simp [hy]))
    simp only [List.length_cons, readU64s, h1, h3]

theorem serialize_node_shape (f : Nat) (n : BTreeNode) (hf : n.fanout = f)
    (hk : n.keys.length = f) (hv : n.values.length = f)
    (hc : n.children.length = f + 1) :
    serialize_node f n =
      toLE n.num_keys 4 ++ (toLE n.fanout 4
        ++ ((if n.is_leaf then 1 else 0) :: (toLE n.node_address 8
        ++ (u64Bytes n.keys ++ (u64Bytes n.values
        ++ u64Bytes n.children))))) := by
  have h1 : n.keys.take n.fanout = n.keys := by
    rw [hf, ← hk]
    exact List.take_length n.keys
  have h2 : n.values.take n.fanout = n.values := by
    rw [hf, ← hv]
    exact List.take_length n.values
  have h3 : n.children.take (n.fanout + 1) = n.children := by
    rw [hf, ← hc]
    exact List.take_length n.children
  simp only [serialize_node, h1, h2, h3]
  have hlen : (toLE n.num_keys 4 ++ toLE n.fanout 4
      ++ [if n.is_leaf then 1 else 0] ++ toLE n.node_address 8
      ++ u64Bytes n.keys ++ u64Bytes n.values
      ++ u64Bytes n.children).length = get_serialized_node_size f := by
    simp [toLE_length, u64Bytes_length, hk, hv, hc, get_serialized_node_size]
    ring
  rw [hlen, Nat.sub_self]
  simp [List.append_assoc]

theorem serialize_node_length (f : Nat) (n : BTreeNode) (hf : n.fanout = f)
    (hk : n.keys.length = f) (hv : n.values.length = f)
    (hc : n.children.length = f + 1) :
    (serialize_node f n).length = get_serialized_node_size f := by
  rw [serialize_node_shape f n hf hk hv hc]
  simp [toLE_length, u64Bytes_length, hk, hv, hc, get_serialized_node_size]
  ring

/-- C2 (amended): the codec round-trip recovers the meaningful projection of
a well-formed node — the four metadata fields always; the first num_keys
keys; the first num_keys values when the node is a leaf; and the first
num_keys + 1 children when the node is internal with at least one key.  (It
does not recover array slots beyond these prefixes, which deserialize
zero-fills, nor the children of an internal node with num_keys = 0, whose
children read is misaligned into the values region.) -/
theorem deserialize_serialize_meaningful (f : Nat) (n : BTreeNode)
    (h : BTreeNode.WF f n) :
    (deserialize_node f (serialize_node f n)).num_keys = n.num_keys ∧
    (deserialize_node f (serialize_node f n)).fanout = n.fanout ∧
    (deserialize_node f (serialize_node f n)).is_leaf = n.is_leaf ∧
    (deserialize_node f (serialize_node f n)).node_address = n.node_address ∧
    (deserialize_node f (serialize_node f n)).keys.take n.num_keys
      = n.keys.take n.num_keys ∧
    (n.is_leaf = true →
      (deserialize_node f (serialize_node f n)).values.take n.num_keys
        = n.values.take n.num_keys) ∧
    (n.is_leaf = false → 1 ≤ n.num_keys →
      (deserialize_node f (serialize_node f n)).children.take (n.num_keys + 1)
        = n.children.take (n.num_keys + 1)) := by
  obtain ⟨hf, hk, hv, hc, hnk, hf32, ha, hkb, hvb, hcb⟩ := h
  have hshape := serialize_node_shape f n hf hk hv hc
  have hlen := serialize_node_length f n hf hk hv hc
  rw [hshape] at hlen
  rw [hshape]
  set B := toLE n.num_keys 4 ++ (toLE n.fanout 4
    ++ ((if n.is_leaf then 1 else 0) :: (toLE n.node_address 8
    ++ (u64Bytes n.keys ++ (u64Bytes n.values
    ++ u64Bytes n.children))))) with hB
  have d0 : readBytes B 0 4 = toLE n.num_keys 4 := by
    unfold readBytes
    rw [List.drop_zero, hB]
    exact List.take_left' (toLE_length _ 4)
  have d4b : B.drop 4 = toLE n.fanout 4
      ++ ((if n.is_leaf then 1 else 0) :: (toLE n.node_address 8
      ++ (u64Bytes n.keys ++ (u64Bytes n.values ++ u64Bytes n.children)))) := by
    rw [hB]
    exact List.drop_left' (toLE_length _ 4)
  have r4 : readBytes B 4 4 = toLE n.fanout 4 := by
    unfold readBytes
    rw [d4b]
    exact List.take_left' (toLE_length _ 4)
  have d8 : B.drop 8 = (if n.is_leaf then 1 else 0) :: (toLE n.node_address 8
      ++ (u64Bytes n.keys ++ (u64Bytes n.values ++ u64Bytes n.children))) := by
    have e : B.drop 8 = (B.drop 4).drop 4 := by
      rw [List.drop_drop]
    rw [e, d4b]
    exact List.drop_left' (toLE_length _ 4)
  have hb8 : byteAt B 8 = (if n.is_leaf then 1 else 0) := by
    unfold byteAt
    rw [d8]
    rfl
  have d9 : B.drop 9 = toLE n.node_address 8
      ++ (u64Bytes n.keys ++ (u64Bytes n.values ++ u64Bytes n.children)) := by
    have e : B.drop 9 = (B.drop 8).drop 1 := by
      rw [List.drop_drop]
    rw [e, d8]
    rfl
  have r9 : readBytes B 9 8 = toLE n.node_address 8 := by
    unfold readBytes
    rw [d9]
    exact List.take_left' (toLE_length _ 8)
  have d17 : B.drop 17 = u64Bytes n.keys
      ++ (u64Bytes n.values ++ u64Bytes n.children) := by
    have e : B.drop 17 = (B.drop 9).drop 8 := by
      rw [List.drop_drop]
    rw [e, d9]
    exact List.drop_left' (toLE_length _ 8)
  have dvalues : B.drop (17 + f * 8) = u64Bytes n.values
      ++ u64Bytes n.children := by
    have e : B.drop (17 + f * 8) = (B.drop 17).drop (f * 8) := by
      rw [List.drop_drop]
    rw [e, d17]
    exact List.drop_left' (by rw [u64Bytes_length, hk]; ring)
  have dchildren : B.drop (17 + f * 8 + f * 8) = u64Bytes n.children := by
    have e : B.drop (17 + f * 8 + f * 8)
        = (B.drop (17 + f * 8)).drop (f * 8) := by
      rw [List.drop_drop]
    rw [e, dvalues]
    exact List.drop_left' (by rw [u64Bytes_length, hv]; ring)
  have e_nk : fromLE (readBytes B 0 4) = n.num_keys := by
    rw [d0, fromLE_toLE]
    have h2 : (256 : Nat) ^ 4 = 2 ^ 32 := by norm_num
    rw [h2]
    exact Nat.mod_eq_of_lt (lt_of_le_of_lt hnk hf32)
  have e_fan : fromLE (readBytes B 4 4) = n.fanout := by
    rw [r4, fromLE_toLE]
    have h2 : (256 : Nat) ^ 4 = 2 ^ 32 := by norm_num
    rw [h2, hf]
    exact Nat.mod_eq_of_lt hf32
  have e_leaf : (byteAt B 8 != 0) = n.is_leaf := by
    rw [hb8]
    cases n.is_leaf <;> rfl
  have e_addr : fromLE (readBytes B 9 8) = n.node_address := by
    rw [r9, fromLE_toLE]
    have h2 : (256 : Nat) ^ 8 = 2 ^ 64 := by norm_num
    rw [h2]
    exact Nat.mod_eq_of_lt ha
  have hlentk : (n.keys.take n.num_keys).length = n.num_keys := by
    rw [List.length_take, hk]
    omega
  have hlentv : (n.values.take n.num_keys).length = n.num_keys := by
    rw [List.length_take, hv]
    omega
  have hlentc : (n.children.take (n.num_keys + 1)).length = n.num_keys + 1 := by
    rw [List.length_take, hc]
    omega
  have hreadK : readU64s B 17 n.num_keys = n.keys.take n.num_keys := by
    have hsp : B.drop 17 = u64Bytes (n.keys.take n.num_keys)
        ++ (u64Bytes (n.keys.drop n.num_keys)
        ++ (u64Bytes n.values ++ u64Bytes n.children)) := by
      calc B.drop 17 = u64Bytes n.keys
          ++ (u64Bytes n.values ++ u64Bytes n.children) := d17
        _ = u64Bytes (n.keys.take n.num_keys ++ n.keys.drop n.num_keys)
            ++ (u64Bytes n.values ++ u64Bytes n.children) := by
          rw [List.take_append_drop]
        _ = _ := by rw [u64Bytes_append, List.append_assoc]
    calc readU64s B 17 n.num_keys
        = readU64s B 17 (n.keys.take n.num_keys).length := by rw [hlentk]
      _ = n.keys.take n.num_keys :=
        readU64s_of_drop B _ _ 17 hsp
          (fun x hx => hkb x (List.mem_of_mem_take hx))
  have hreadV : readU64s B (17 + f * 8) n.num_keys
      = n.values.take n.num_keys := by
    have hsp : B.drop (17 + f * 8) = u64Bytes (n.values.take n.num_keys)
        ++ (u64Bytes (n.values.drop n.num_keys) ++ u64Bytes n.children) := by
      calc B.drop (17 + f * 8)
          = u64Bytes n.values ++ u64Bytes n.children := dvalues
        _ = u64Bytes (n.values.take n.num_keys ++ n.values.drop n.num_keys)
            ++ u64Bytes n.children := by rw [List.take_append_drop]
        _ = _ := by rw [u64Bytes_append, List.append_assoc]
    calc readU64s B (17 + f * 8) n.num_keys
        = readU64s B (17 + f * 8) (n.values.take n.num_keys).length := by
          rw [hlentv]
      _ = n.values.take n.num_keys :=
        readU64s_of_drop B _ _ _ hsp
          (fun x hx => hvb x (List.mem_of_mem_take hx))
  have hreadC : readU64s B (17 + f * 8 + f * 8) (n.num_keys + 1)
      = n.children.take (n.num_keys + 1) := by
    have hsp : B.drop (17 + f * 8 + f * 8)
        = u64Bytes (n.children.take (n.num_keys + 1))
        ++ u64Bytes (n.children.drop (n.num_keys + 1)) := by
      calc B.drop (17 + f * 8 + f * 8) = u64Bytes n.children := dchildren
        _ = u64Bytes (n.children.take (n.num_keys + 1)
            ++ n.children.drop (n.num_keys + 1)) := by
          rw [List.take_append_drop]
        _ = _ := by rw [u64Bytes_append]
    calc readU64s B (17 + f * 8 + f * 8) (n.num_keys + 1)
        = readU64s B (17 + f * 8 + f * 8)
            (n.children.take (n.num_keys + 1)).length := by rw [hlentc]
      _ = n.children.take (n.num_keys + 1) :=
        readU64s_of_drop B _ _ _ hsp
          (fun x hx => hcb x (List.mem_of_mem_take hx))
  have hnlt : ¬ (B.length < 17) := by
    rw [hlen]
    unfold get_serialized_node_size
    omega
  simp only [deserialize_node]
  rw [if_neg hnlt, e_nk, e_fan, e_leaf, e_addr, hlen]
  by_cases hpos : 0 < n.num_keys
  · have hck : 0 < n.num_keys ∧
        17 + n.num_keys * 8 ≤ get_serialized_node_size f :=
      ⟨hpos, by unfold get_serialized_node_size; omega⟩
    rw [if_pos hck, hf]
    refine ⟨rfl, rfl, rfl, rfl, ?_, ?_, ?_⟩
    · simp only [copyInto, hreadK, hlentk, BTreeNode.init]
      exact List.take_left' hlentk
    · intro hleaf
      rw [hleaf]
      have hcv : (true = true ∧ 0 < n.num_keys ∧
          17 + f * 8 + n.num_keys * 8 ≤ get_serialized_node_size f) :=
        ⟨rfl, hpos, by unfold get_serialized_node_size; omega⟩
      rw [if_pos hcv]
      simp only [copyInto, hreadV, hlentv, BTreeNode.init]
      exact List.take_left' hlentv
    · intro hleaf _
      rw [hleaf]
      have hcc : ((false : Bool) = false ∧
          17 + f * 8 + f * 8 + (n.num_keys + 1) * 8
            ≤ get_serialized_node_size f) :=
        ⟨rfl, by unfold get_serialized_node_size; omega⟩
      rw [if_pos hcc]
      simp only [copyInto, hreadC, hlentc, BTreeNode.init]
      exact List.take_left' hlentc
  · have h0 : n.num_keys = 0 := by omega
    have hck : ¬ (0 < n.num_keys ∧
        17 + n.num_keys * 8 ≤ get_serialized_node_size f) := by
      simp [h0]
    rw [if_neg hck]
    refine ⟨rfl, rfl, rfl, rfl, ?_, ?_, ?_⟩
    · simp [h0]
    · intro _
      simp [h0]
    · intro _ h1
      omega

/-- C2 counterexample: the round-trip is not the identity — a fanout-1 leaf
with num_keys = 0 and a nonzero slot in its keys array comes back with that
slot zeroed. -/
theorem serialize_roundtrip_counterexample :
    deserialize_node 1 (serialize_node 1
      { keys := [7], values := [0], children := [0, 0], num_keys := 0,
        fanout := 1, is_leaf := true, node_address := 0 }) ≠
    { keys := [7], values := [0], children := [0, 0], num_keys := 0,
      fanout := 1, is_leaf := true, node_address := 0 } := by
  decide

/-- C2 witness: the amended round-trip at a concrete fanout-1 leaf. -/
theorem deserialize_serialize_meaningful_witness :
    BTreeNode.WF 1
      { keys := [5], values := [9], children := [3, 4], num_keys := 1,
        fanout := 1, is_leaf := true, node_address := 2 } ∧
    ((deserialize_node 1 (serialize_node 1
      { keys := [5], values := [9], children := [3, 4], num_keys := 1,
        fanout := 1, is_leaf := true, node_address := 2 })).num_keys = 1 ∧
      (deserialize_node 1 (serialize_node 1
      { keys := [5], values := [9], children := [3, 4], num_keys := 1,
        fanout := 1, is_leaf := true, node_address := 2 })).keys.take 1
        = [5]) := by
  refine ⟨by decide, ?_⟩
  have h := deserialize_serialize_meaningful 1
    { keys := [5], values := [9], children := [3, 4], num_keys := 1,
      fanout := 1, is_leaf := true, node_address := 2 } (by decide)
  exact ⟨h.1, by rw [h.2.2.2.2.1]; rfl⟩

theorem getD_take (l : List Nat) (n j : Nat) (hj : j < n) :
    (l.take n).getD j 0 = l.getD j 0 := by
  simp [List.getD_eq_getElem?_getD, List.getElem?_take, hj]

theorem getD_mem (l : List Nat) (n : Nat) (h : n < l.length) :
    l.getD n 0 ∈ l := by
  rw [List.getD_eq_getElem l 0 h]
  exact List.getElem_mem h

theorem childScan_le (key : Nat) (l : List Nat) :
    childScan key l ≤ l.length := by
  induction l with
  | nil => simp [childScan]
  | cons k ks ih =>
    simp only [childScan, List.length_cons]
    split
    · omega
    · omega

theorem childScan_found (key : Nat) (l : List Nat)
    (h : childScan key l < l.length) :
    key < l.getD (childScan key l) 0 := by
  induction l with
  | nil => simp [childScan] at h
  | cons k ks ih =>
    simp only [childScan] at h ⊢
    by_cases hk : key < k
    · simpa [hk] using hk
    · simp only [if_neg hk] at h ⊢
      rw [List.getD_cons_succ]
      exact ih (by simpa using h)

theorem childScan_before (key : Nat) (l : List Nat) :
    ∀ j < childScan key l, l.getD j 0 ≤ key := by
  induction l with
  | nil => simp [childScan]
  | cons k ks ih =>
    intro j hj
    simp only [childScan] at hj
    by_cases hk : key < k
    · simp [hk] at hj
    · simp only [if_neg hk] at hj
      match j with
      | 0 => simpa [List.getD_cons_zero] using Nat.le_of_not_lt hk
      | j + 1 =>
        rw [List.getD_cons_succ]
        exact ih j (by omega)

theorem childScan_at_eq (key : Nat) (l : List Nat)
    (hs : l.Pairwise (· < ·)) :
    ∀ i < l.length, l.getD i 0 = key → childScan key l = i + 1 := by
  induction l with
  | nil => simp
  | cons k ks ih =>
    intro i hi heq
    rcases List.pairwise_cons.mp hs with ⟨hall, hks⟩
    match i with
    | 0 =>
      rw [List.getD_cons_zero] at heq
      subst heq
      simp only [childScan, lt_irrefl, if_neg (lt_irrefl k)]
      cases ks with
      | nil => rfl
      | cons k2 ks2 =>
        have hk2 : k < k2 := hall k2 (by simp)
        simp [childScan, hk2]
    | i + 1 =>
      rw [List.getD_cons_succ] at heq
      have hi2 : i < ks.length := by simpa using hi
      have hlt : k < key := by
        rw [← heq]
        exact hall _ (getD_mem ks i hi2)
      simp only [childScan, if_neg (Nat.not_lt.mpr (Nat.le_of_lt hlt))]
      rw [ih hks i hi2 heq]

/-- C5: during traversal of an internal node with sorted keys, the chosen
child index is the smallest i with key < keys[i] (num_keys when none
exists); on key equality at position i the engine descends into child
i + 1; a node with num_keys = 0 yields child index 0. -/
theorem get_child_index_spec (node : BTreeNode) (key : Nat)
    (hlen : node.num_keys ≤ node.keys.length)
    (hsorted : (node.keys.take node.num_keys).Pairwise (· < ·)) :
    (node.num_keys = 0 → get_child_index_for_key node key = 0) ∧
    get_child_index_for_key node key ≤ node.num_keys ∧
    (get_child_index_for_key node key < node.num_keys →
      key < node.keys.getD (get_child_index_for_key node key) 0) ∧
    (∀ j < get_child_index_for_key node key, node.keys.getD j 0 ≤ key) ∧
    (∀ i < node.num_keys, node.keys.getD i 0 = key →
      get_child_index_for_key node key = i + 1) := by
  have hlt : (node.keys.take node.num_keys).length = node.num_keys := by
    rw [List.length_take]
    omega
  by_cases h0 : node.num_keys = 0
  · refine ⟨fun _ => by simp [get_child_index_for_key, h0], ?_, ?_, ?_, ?_⟩
    · simp [get_child_index_for_key, h0]
    · intro hcontra
      omega
    · intro j hj
      simp [get_child_index_for_key, h0] at hj
    · intro i hi
      omega
  · have hval : get_child_index_for_key node key
        = childScan key (node.keys.take node.num_keys) := by
      simp [get_child_index_for_key, h0]
    refine ⟨fun hcontra => absurd hcontra h0, ?_, ?_, ?_, ?_⟩
    · rw [hval]
      have h1 := childScan_le key (node.keys.take node.num_keys)
      omega
    · intro hlt2
      rw [hval] at hlt2 ⊢
      have := childScan_found key (node.keys.take node.num_keys)
        (by rw [hlt]; exact hlt2)
      rwa [getD_take _ _ _ hlt2] at this
    · intro j hj
      rw [hval] at hj
      have hjlt : j < node.num_keys := by
        have := childScan_le key (node.keys.take node.num_keys)
        omega
      have := childScan_before key (node.keys.take node.num_keys) j hj
      rwa [getD_take _ _ _ hjlt] at this
    · intro i hi heq
      rw [hval]
      exact childScan_at_eq key _ hsorted i (by rw [hlt]; exact hi)
        (by rw [getD_take _ _ _ hi]; exact heq)

/-- C5 witness: the specification at the internal node with keys [3, 7] and
search key 7 — equality descends into child 2. -/
theorem get_child_index_spec_witness :
    ((2 : Nat) ≤ 3 ∧ List.Pairwise (· < ·) [3, 7]) ∧
    get_child_index_for_key
      { keys := [3, 7, 0], values := [0, 0, 0], children := [0, 0, 0, 0],
        num_keys := 2, fanout := 3, is_leaf := false, node_address := 0 }
      7 = 2 := by
  refine ⟨⟨by decide, by decide⟩, ?_⟩
  have h := get_child_index_spec
    { keys := [3, 7, 0], values := [0, 0, 0], children := [0, 0, 0, 0],
      num_keys := 2, fanout := 3, is_leaf := false, node_address := 0 }
    7 (by decide) (by decide)
  exact h.2.2.2.2 1 (by decide) (by decide)

/-- C1: with fanout 4 and the full root leaf [1,2,3,4], inserting the
duplicate key 2 does NOT update in place: the leaf handler takes the
leaf-full branch and starts an asynchronous leaf split, whose stored split
state duplicates key 2 — the old half keeps (2, 2000) while the new half,
where a subsequent search for 2 descends (the separator is 2), carries the
stale pair (2, 20). -/
theorem duplicate_insert_full_leaf_splits :
    handle_leaf_operation { btree_fanout := 4, num_memory_nodes := 2 }
      { root_address := 0x10000000, tree_height := 1, next_node_id := 1,
        pending_ops := fun _ => none, parent_map := fun _ => none,
        next_req_id := 100 }
      { AsyncOperation.init with
        type := .INSERT
        key := 2
        value := 2000
        current_address := 0x10000000 }
      { keys := [1, 2, 3, 4], values := [10, 20, 30, 40],
        children := [0, 0, 0, 0, 0], num_keys := 4, fanout := 4,
        is_leaf := true, node_address := 0x10000000 }
    = split_leaf_async { btree_fanout := 4, num_memory_nodes := 2 }
      { root_address := 0x10000000, tree_height := 1, next_node_id := 1,
        pending_ops := fun _ => none, parent_map := fun _ => none,
        next_req_id := 100 }
      { AsyncOperation.init with
        type := .INSERT
        key := 2
        value := 2000
        current_address := 0x10000000 }
      { keys := [1, 2, 3, 4], values := [10, 20, 30, 40],
        children := [0, 0, 0, 0, 0], num_keys := 4, fanout := 4,
        is_leaf := true, node_address := 0x10000000 }
      2 2000 ∧
    ((handle_leaf_operation { btree_fanout := 4, num_memory_nodes := 2 }
      { root_address := 0x10000000, tree_height := 1, next_node_id := 1,
        pending_ops := fun _ => none, parent_map := fun _ => none,
        next_req_id := 100 }
      { AsyncOperation.init with
        type := .INSERT
        key := 2
        value := 2000
        current_address := 0x10000000 }
      { keys := [1, 2, 3, 4], values := [10, 20, 30, 40],
        children := [0, 0, 0, 0, 0], num_keys := 4, fanout := 4,
        is_leaf := true, node_address := 0x10000000 }).1.pending_ops 100).map
      (fun o => (o.type, o.separator_key,
        o.old_node.num_keys, o.old_node.keys.take 2, o.old_node.values.take 2,
        o.new_node.num_keys, o.new_node.keys.take 3, o.new_node.values.take 3))
    = some (OpType.SPLIT_LEAF, 2, 2, [1, 2], [10, 2000],
        3, [2, 3, 4], [20, 30, 40]) := by
  exact ⟨rfl, rfl⟩

/-- C8: a write that arrives on interface 1 of a memory server with four
interfaces has its completion sent through interface 0 (the primary
rdma_interface), not through interface 1 — the response does not use the
arrival channel. -/
theorem write_response_primary_interface :
    (handleMemoryEventFromInterface true 0x10000000 4 0
      { memory_blocks := fun _ => none, node_locks := fun _ => none,
        memory_used := 0 }
      (MemRequest.write 0x10000000 [42]) 1).2
    = MemResponse.writeResp 0 ∧ (0 : Nat) ≠ 1 := by
  exact ⟨rfl, by decide⟩

/-- C9: a read completion whose request id has no entry in the pending
operation map leaves the whole engine state unchanged (pending map, paths,
root_address, tree_height, next_node_id, parent hint map) and issues no
remote request. -/
theorem late_read_response_dropped (cfg : EngineConfig) (s : EngineState)
    (req_id : Nat) (data : List Nat) (h : s.pending_ops req_id = none) :
    handle_read_response cfg s req_id data = (s, []) := by
  unfold handle_read_response
  rw [h]

/-- C9 witness: a concrete engine state with an empty pending map drops the
completion of request 5. -/
theorem late_read_response_dropped_witness :
    handle_read_response { btree_fanout := 4, num_memory_nodes := 2 }
      { root_address := 0x10000000, tree_height := 1, next_node_id := 1,
        pending_ops := fun _ => none, parent_map := fun _ => none,
        next_req_id := 100 } 5 [1, 2, 3]
    = ({ root_address := 0x10000000, tree_height := 1, next_node_id := 1,
         pending_ops := fun _ => none, parent_map := fun _ => none,
         next_req_id := 100 }, []) :=
  late_read_response_dropped { btree_fanout := 4, num_memory_nodes := 2 }
    { root_address := 0x10000000, tree_height := 1, next_node_id := 1,
      pending_ops := fun _ => none, parent_map := fun _ => none,
      next_req_id := 100 } 5 [1, 2, 3] rfl

/-- C10: release_lock changes lock state only when the lock at the address
exists, is held, and is owned by the requester; then the head of a
non-empty waiting queue becomes the owner (FIFO hand-off, with the lock
staying held) and an empty queue frees the lock with owner 0; a release by
a non-owner, of a free lock, or of an untracked lock changes nothing, and
no other address is ever touched. -/
theorem release_lock_owner_guarded (now : Nat) (st : MemServerState)
    (addr r : Nat) :
    (st.node_locks addr = none → release_lock now st addr r = st) ∧
    (∀ l, st.node_locks addr = some l → l.is_locked = false →
      release_lock now st addr r = st) ∧
    (∀ l, st.node_locks addr = some l → l.owner_id ≠ r →
      release_lock now st addr r = st) ∧
    (∀ l, st.node_locks addr = some l → l.is_locked = true →
      l.owner_id = r → l.waiting_queue = [] →
      ((release_lock now st addr r).node_locks addr
          = some { l with is_locked := false, owner_id := 0 } ∧
        (release_lock now st addr r).memory_blocks = st.memory_blocks ∧
        ∀ a, a ≠ addr →
          (release_lock now st addr r).node_locks a = st.node_locks a)) ∧
    (∀ l h t, st.node_locks addr = some l → l.is_locked = true →
      l.owner_id = r → l.waiting_queue = h :: t →
      ((release_lock now st addr r).node_locks addr
          = some { l with
              is_locked := true
              owner_id := h
              lock_time := now
              waiting_queue := t } ∧
        (release_lock now st addr r).memory_blocks = st.memory_blocks ∧
        ∀ a, a ≠ addr →
          (release_lock now st addr r).node_locks a = st.node_locks a)) := by
  refine ⟨?_, ?_, ?_, ?_, ?_⟩
  · intro h
    unfold release_lock
    simp only [h]
  · intro l hl hfree
    unfold release_lock
    simp only [hl]
    rw [if_neg (by simp [hfree])]
  · intro l hl hown
    unfold release_lock
    simp only [hl]
    rw [if_neg (by simp [hown])]
  · intro l hl hheld hown hq
    unfold release_lock
    simp only [hl]
    rw [if_pos ⟨hheld, hown⟩]
    simp only [hq]
    refine ⟨by simp [updMap], by trivial, fun a ha => by simp [updMap, ha]⟩
  · intro l h t hl hheld hown hq
    unfold release_lock
    simp only [hl]
    rw [if_pos ⟨hheld, hown⟩]
    simp only [hq]
    refine ⟨by simp [updMap], by trivial, fun a ha => by simp [updMap, ha]⟩

/-- C10 witness: releasing lock 5 held by owner 7 with waiters [9, 11]
hands the lock to 9 with queue [11]. -/
theorem release_lock_owner_guarded_witness :
    (release_lock 42
      { memory_blocks := fun _ => none,
        node_locks := fun a =>
          if a = 5 then
            some { lock_address := 5, is_locked := true, owner_id := 7,
                   lock_time := 0, waiting_queue := [9, 11] }
          else none,
        memory_used := 0 } 5 7).node_locks 5
    = some { lock_address := 5, is_locked := true, owner_id := 9,
             lock_time := 42, waiting_queue := [11] } := by
  have h := release_lock_owner_guarded 42
    { memory_blocks := fun _ => none,
      node_locks := fun a =>
        if a = 5 then
          some { lock_address := 5, is_locked := true, owner_id := 7,
                 lock_time := 0, waiting_queue := [9, 11] }
        else none,
      memory_used := 0 } 5 7
  exact (h.2.2.2.2
    { lock_address := 5, is_locked := true, owner_id := 7,
      lock_time := 0, waiting_queue := [9, 11] } 9 [11]
    rfl rfl rfl rfl).1

theorem getD_eq_get (l : List Nat) (n : Nat) (h : n < l.length) :
    l.getD n 0 = l.get ⟨n, h⟩ := by
  simp [List.getD_eq_getElem?_getD, List.getElem?_eq_getElem h]

theorem getD_append_left (l l2 : List Nat) (n : Nat) (h : n < l.length) :
    (l ++ l2).getD n 0 = l.getD n 0 := by
  simp [List.getD_eq_getElem?_getD, List.getElem?_append, h]

theorem pairwise_lt_getD (l : List Nat) (hs : l.Pairwise (· < ·)) (i j : Nat)
    (hij : i < j) (hj : j < l.length) : l.getD i 0 < l.getD j 0 := by
  have hi : i < l.length := lt_trans hij hj
  rw [getD_eq_get l i hi, getD_eq_get l j hj]
  exact List.pairwise_iff_get.mp hs ⟨i, hi⟩ ⟨j, hj⟩ hij

theorem insertScan_le (key : Nat) (l : List Nat) :
    insertScan key l ≤ l.length := by
  induction l with
  | nil => simp [insertScan]
  | cons k ks ih =>
    simp only [insertScan, List.length_cons]
    split
    · omega
    · omega

theorem insertScan_take_lt (key : Nat) (l : List Nat) :
    ∀ x ∈ l.take (insertScan key l), x < key := by
  induction l with
  | nil => simp
  | cons k ks ih =>
    intro x hx
    simp only [insertScan] at hx
    by_cases hk : k < key
    · rw [if_pos hk] at hx
      rw [List.take_succ_cons] at hx
      rcases List.mem_cons.mp hx with h1 | h2
      · rwa [h1]
      · exact ih x h2
    · rw [if_neg hk] at hx
      simp at hx

theorem insertScan_drop_gt (key : Nat) (l : List Nat)
    (hs : l.Pairwise (· < ·)) (hnot : key ∉ l) :
    ∀ x ∈ l.drop (insertScan key l), key < x := by
  induction l with
  | nil => simp
  | cons k ks ih =>
    intro x hx
    rcases List.pairwise_cons.mp hs with ⟨hall, hks⟩
    simp only [insertScan] at hx
    by_cases hk : k < key
    · rw [if_pos hk, List.drop_succ_cons] at hx
      exact ih hks (fun hmem => hnot (List.mem_cons_of_mem k hmem)) x hx
    · rw [if_neg hk, List.drop_zero] at hx
      have hkey_lt_k : key < k := by
        rcases Nat.lt_or_ge key k with h1 | h2
        · exact h1
        · exact absurd (Nat.le_antisymm (Nat.le_of_not_lt hk) h2)
            (fun he => hnot (he ▸ List.mem_cons_self k ks))
      rcases List.mem_cons.mp hx with h1 | h2
      · rwa [h1]
      · exact lt_trans hkey_lt_k (hall x h2)

theorem insert_sorted (key : Nat) (l : List Nat) (hs : l.Pairwise (· < ·))
    (hnot : key ∉ l) :
    (l.take (insertScan key l)
      ++ key :: l.drop (insertScan key l)).Pairwise (· < ·) := by
  rw [List.pairwise_append]
  have hsplit := List.take_append_drop (insertScan key l) l
  have hparts : (l.take (insertScan key l)).Pairwise (· < ·) ∧
      (l.drop (insertScan key l)).Pairwise (· < ·) ∧
      ∀ a ∈ l.take (insertScan key l), ∀ b ∈ l.drop (insertScan key l),
        a < b := by
    rw [← List.pairwise_append]
    rw [hsplit]
    exact hs
  refine ⟨hparts.1, ?_, ?_⟩
  · rw [List.pairwise_cons]
    exact ⟨insertScan_drop_gt key l hs hnot, hparts.2.1⟩
  · intro a ha b hb
    rcases List.mem_cons.mp hb with h1 | h2
    · rw [h1]
      exact insertScan_take_lt key l a ha
    · exact hparts.2.2 a ha b h2

theorem insert_perm (key : Nat) (l : List Nat) (pos : Nat) :
    (l.take pos ++ key :: l.drop pos).Perm (key :: l) := by
  have h : (l.take pos ++ key :: l.drop pos).Perm
      (key :: (l.take pos ++ l.drop pos)) := List.perm_middle
  rwa [List.take_append_drop] at h

theorem mem_take_lt_sep (l : List Nat) (hs : l.Pairwise (· < ·)) (s : Nat)
    (hsl : s < l.length) :
    ∀ x ∈ l.take s, x < l.getD s 0 := by
  intro x hx
  rcases List.mem_iff_get.mp hx with ⟨⟨i, hi⟩, hget⟩
  have hi2 : i < s := by
    have h2 := hi
    rw [List.length_take] at h2
    omega
  have hi3 : i < l.length := lt_trans hi2 hsl
  have heq : (List.take s l).get ⟨i, hi⟩ = l.get ⟨i, hi3⟩ := by
    simp [List.getElem_take]
  rw [← hget, heq, ← getD_eq_get l i hi3]
  exact pairwise_lt_getD l hs i s hi2 hsl

theorem mem_drop_gt_sep (l : List Nat) (hs : l.Pairwise (· < ·)) (s : Nat)
    (hsl : s < l.length) :
    ∀ x ∈ l.drop (s + 1), l.getD s 0 < x := by
  intro x hx
  rcases List.mem_iff_get.mp hx with ⟨⟨i, hi⟩, hget⟩
  have hi2 : s + 1 + i < l.length := by
    have h2 := hi
    rw [List.length_drop] at h2
    omega
  have heq : (List.drop (s + 1) l).get ⟨i, hi⟩ = l.get ⟨s + 1 + i, hi2⟩ := by
    simp [List.getElem_drop]
  rw [← hget, heq, ← getD_eq_get l _ hi2]
  exact pairwise_lt_getD l hs s (s + 1 + i) (by omega) hi2

theorem getD_drop_zero (l : List Nat) (m : Nat) (h : m < l.length) :
    (l.drop m).getD 0 0 = l.getD m 0 := by
  have h2 : 0 < (l.drop m).length := by
    rw [List.length_drop]
    omega
  have h3 : m + 0 < l.length := by omega
  have heq : (l.drop m).get ⟨0, h2⟩ = l.get ⟨m + 0, h3⟩ := by
    simp [List.getElem_drop]
  rw [getD_eq_get _ _ h2, heq, getD_eq_get _ _ (show m < l.length from h)]
  congr 1

theorem assembleInsert_full (arr : List Nat) (f pos x : Nat)
    (hlen : arr.length = f) (hpos : pos ≤ f) :
    assembleInsert arr f pos x (f + 1)
      = arr.take pos ++ x :: arr.drop pos := by
  unfold assembleInsert
  have h1 : (arr.drop pos).take (f - pos) = arr.drop pos := by
    apply List.take_of_length_le
    rw [List.length_drop, hlen]
  rw [h1]
  have h2 : f + 1 - (f + 1) = 0 := by omega
  rw [h2]
  simp

theorem overwriteTo_take (arr src : List Nat) (cnt : Nat)
    (hlen : cnt ≤ src.length) :
    (overwriteTo arr src cnt).take cnt = src.take cnt := by
  unfold overwriteTo
  apply List.take_left'
  rw [List.length_take]
  omega

/-- C3 (amended): for a full sorted leaf and a new key NOT already present,
the leaf split keeps the first fanout / 2 entries of the sorted merge in
the old node, moves the remaining fanout + 1 - fanout / 2 entries into the
new node, takes the first key of the new node (= element fanout / 2 of the
merge) as separator, and both resulting key prefixes are strictly
increasing with every old-node key below the separator.  (The amendment
requires the new key to be absent: on a duplicate the merge contains the
key twice and the conclusions fail, see the counterexample.) -/
theorem split_leaf_correct (f : Nat) (old_leaf : BTreeNode)
    (nk nv addr s pos : Nat) (merged mergedV : List Nat)
    (old2 newL : BTreeNode)
    (hfull : old_leaf.num_keys = f)
    (hklen : old_leaf.keys.length = f)
    (hvlen : old_leaf.values.length = f)
    (hsorted : old_leaf.keys.Pairwise (· < ·))
    (hnew : nk ∉ old_leaf.keys)
    (hs : s = f / 2)
    (hpos : pos = insertScan nk old_leaf.keys)
    (hm : merged = old_leaf.keys.take pos ++ nk :: old_leaf.keys.drop pos)
    (hmv : mergedV
      = old_leaf.values.take pos ++ nv :: old_leaf.values.drop pos)
    (hor : old2 = (split_leaf_compute f old_leaf nk nv addr).1)
    (hnr : newL = (split_leaf_compute f old_leaf nk nv addr).2) :
    merged.Pairwise (· < ·) ∧
    merged.Perm (nk :: old_leaf.keys) ∧
    old2.num_keys = s ∧
    old2.keys.take s = merged.take s ∧
    old2.values.take s = mergedV.take s ∧
    newL.num_keys = f + 1 - s ∧
    newL.keys.take (f + 1 - s) = merged.drop s ∧
    newL.values.take (f + 1 - s) = mergedV.drop s ∧
    newL.keys.getD 0 0 = merged.getD s 0 ∧
    (old2.keys.take s).Pairwise (· < ·) ∧
    (newL.keys.take (f + 1 - s)).Pairwise (· < ·) ∧
    (∀ k ∈ old2.keys.take s, k < newL.keys.getD 0 0) := by
  have htake : old_leaf.keys.take old_leaf.num_keys = old_leaf.keys := by
    rw [hfull, ← hklen]
    exact List.take_length old_leaf.keys
  have hpos_le : pos ≤ f := by
    rw [hpos, ← hklen]
    exact insertScan_le nk old_leaf.keys
  have hmlen : merged.length = f + 1 := by
    rw [hm]
    simp [List.length_take, List.length_drop, hklen]
    omega
  have hmvlen : mergedV.length = f + 1 := by
    rw [hmv]
    simp [List.length_take, List.length_drop, hvlen]
    omega
  have hsl : s < merged.length := by
    rw [hmlen, hs]
    omega
  have hall_keys : assembleInsert old_leaf.keys old_leaf.num_keys
      (insertScan nk (old_leaf.keys.take old_leaf.num_keys)) nk (f + 1)
      = merged := by
    rw [htake, hfull, ← hpos, hm]
    exact assembleInsert_full old_leaf.keys f pos nk hklen hpos_le
  have hall_values : assembleInsert old_leaf.values old_leaf.num_keys
      (insertScan nk (old_leaf.keys.take old_leaf.num_keys)) nv (f + 1)
      = mergedV := by
    rw [htake, hfull, ← hpos, hmv]
    exact assembleInsert_full old_leaf.values f pos nv hvlen hpos_le
  have heval : split_leaf_compute f old_leaf nk nv addr =
      ({ old_leaf with
          num_keys := f / 2,
          keys := overwriteTo old_leaf.keys merged (f / 2),
          values := overwriteTo old_leaf.values mergedV (f / 2) },
       { BTreeNode.init f with
          node_address := addr
          is_leaf := true
          num_keys := f + 1 - f / 2
          keys := overwriteTo (BTreeNode.init f).keys
            (merged.drop (f / 2)) (f + 1 - f / 2)
          values := overwriteTo (BTreeNode.init f).values
            (mergedV.drop (f / 2)) (f + 1 - f / 2) }) := by
    simp only [split_leaf_compute]
    rw [hall_keys, hall_values]
  have hmsorted : merged.Pairwise (· < ·) := by
    rw [hm, hpos]
    exact insert_sorted nk old_leaf.keys hsorted hnew
  have hdrop_len : (merged.drop s).length = f + 1 - s := by
    rw [List.length_drop, hmlen]
  have hdrop_lenv : (mergedV.drop s).length = f + 1 - s := by
    rw [List.length_drop, hmvlen]
  have hold_keys : old2.keys.take s = merged.take s := by
    rw [hor, heval, hs]
    exact overwriteTo_take _ _ _ (by rw [hmlen]; omega)
  have hnew_keys : newL.keys.take (f + 1 - s) = merged.drop s := by
    rw [hnr, heval, hs]
    have := overwriteTo_take (BTreeNode.init f).keys (merged.drop (f / 2))
      (f + 1 - f / 2) (by rw [← hs, hdrop_len])
    rw [this, ← hs, List.take_of_length_le (by rw [hdrop_len])]
  have hsep : newL.keys.getD 0 0 = merged.getD s 0 := by
    rw [hnr, heval]
    show (overwriteTo (BTreeNode.init f).keys
      (merged.drop (f / 2)) (f + 1 - f / 2)).getD 0 0 = merged.getD s 0
    unfold overwriteTo
    rw [getD_append_left _ _ 0
      (by rw [← hs, List.length_take, hdrop_len]; omega)]
    rw [getD_take _ _ _ (by omega), ← hs]
    exact getD_drop_zero merged s hsl
  refine ⟨hmsorted, ?_, ?_, hold_keys, ?_, ?_, hnew_keys, ?_, hsep, ?_, ?_, ?_⟩
  · rw [hm, hpos]
    exact insert_perm nk old_leaf.keys (insertScan nk old_leaf.keys)
  · rw [hor, heval, hs]
  · rw [hor, heval, hs]
    exact overwriteTo_take _ _ _ (by rw [hmvlen]; omega)
  · rw [hnr, heval, hs]
  · rw [hnr, heval, hs]
    have := overwriteTo_take (BTreeNode.init f).values (mergedV.drop (f / 2))
      (f + 1 - f / 2) (by rw [← hs, hdrop_lenv])
    rw [this, ← hs, List.take_of_length_le (by rw [hdrop_lenv])]
  · rw [hold_keys]
    exact hmsorted.sublist (List.take_sublist s merged)
  · rw [hnew_keys]
    exact hmsorted.sublist (List.drop_sublist s merged)
  · intro k hk
    rw [hsep]
    rw [hold_keys] at hk
    exact mem_take_lt_sep merged hmsorted s hsl k hk

/-- C3 counterexample: the claim fails without excluding duplicates — with
fanout 4, the full sorted leaf [1,2,3,4] and the (already present) new key
3, the new node's key prefix is [3,3,4], which is not strictly
increasing. -/
theorem split_leaf_counterexample :
    List.Pairwise (· < ·) [1, 2, 3, 4] ∧
    ¬ (((split_leaf_compute 4
      { keys := [1, 2, 3, 4], values := [10, 20, 30, 40],
        children := [0, 0, 0, 0, 0], num_keys := 4, fanout := 4,
        is_leaf := true, node_address := 1 } 3 3000 777).2).keys.take
          3).Pairwise (· < ·) := by
  constructor
  · decide
  · decide

/-- C3 witness: splitting the full leaf [1,2,3,4] on the fresh key 5 keeps
[1,2] in the old node and moves [3,4,5] into the new one, separator 3. -/
theorem split_leaf_correct_witness :
    (List.Pairwise (· < ·) [1, 2, 3, 4] ∧ (5 : Nat) ∉ [1, 2, 3, 4]) ∧
    (split_leaf_compute 4
      { keys := [1, 2, 3, 4], values := [10, 20, 30, 40],
        children := [0, 0, 0, 0, 0], num_keys := 4, fanout := 4,
        is_leaf := true, node_address := 1 } 5 5000 777).1.keys.take 2
      = [1, 2] ∧
    (split_leaf_compute 4
      { keys := [1, 2, 3, 4], values := [10, 20, 30, 40],
        children := [0, 0, 0, 0, 0], num_keys := 4, fanout := 4,
        is_leaf := true, node_address := 1 } 5 5000 777).2.keys.take 3
      = [3, 4, 5] ∧
    (split_leaf_compute 4
      { keys := [1, 2, 3, 4], values := [10, 20, 30, 40],
        children := [0, 0, 0, 0, 0], num_keys := 4, fanout := 4,
        is_leaf := true, node_address := 1 } 5 5000 777).2.keys.getD 0 0
      = 3 := by
  have h := split_leaf_correct 4
    { keys := [1, 2, 3, 4], values := [10, 20, 30, 40],
      children := [0, 0, 0, 0, 0], num_keys := 4, fanout := 4,
      is_leaf := true, node_address := 1 }
    5 5000 777 2 4 [1, 2, 3, 4, 5] [10, 20, 30, 40, 5000]
    (split_leaf_compute 4
      { keys := [1, 2, 3, 4], values := [10, 20, 30, 40],
        children := [0, 0, 0, 0, 0], num_keys := 4, fanout := 4,
        is_leaf := true, node_address := 1 } 5 5000 777).1
    (split_leaf_compute 4
      { keys := [1, 2, 3, 4], values := [10, 20, 30, 40],
        children := [0, 0, 0, 0, 0], num_keys := 4, fanout := 4,
        is_leaf := true, node_address := 1 } 5 5000 777).2
    rfl rfl rfl (by decide) (by decide) rfl rfl rfl rfl rfl rfl
  refine ⟨⟨by decide, by decide⟩, ?_, ?_, ?_⟩
  · rw [h.2.2.2.1] <;> decide
  · rw [h.2.2.2.2.2.2.1] <;> decide
  · rw [h.2.2.2.2.2.2.2.2.1] <;> decide

theorem assembleInsert_children (arr : List Nat) (f pos x : Nat)
    (hlen : arr.length = f + 1) (hpos : pos ≤ f) :
    assembleInsert arr (f + 1) (pos + 1) x (f + 2)
      = arr.take (pos + 1) ++ x :: arr.drop (pos + 1) := by
  unfold assembleInsert
  have h1 : (arr.drop (pos + 1)).take (f + 1 - (pos + 1))
      = arr.drop (pos + 1) := by
    apply List.take_of_length_le
    rw [List.length_drop, hlen]
  rw [h1]
  have h2 : f + 2 - (f + 1 + 1) = 0 := by omega
  rw [h2]
  simp

/-- C4 (amended): for a full sorted internal node and an incoming separator
key NOT already present, the internal split promotes the middle key (index
fanout / 2 of the fanout + 1 assembled keys) as separator without storing
it in either resulting node: the old node keeps the fanout / 2 keys to its
left with their fanout / 2 + 1 children, the new node receives the
fanout - fanout / 2 keys and the children to the right of the split point.
(The amendment requires the incoming key to be absent: on a duplicate the
promoted key reappears in the old node, see the counterexample.) -/
theorem split_internal_correct (f : Nat) (old_internal : BTreeNode)
    (nk nc addr s pos : Nat) (merged mergedC : List Nat)
    (old2 newI : BTreeNode) (promoted : Nat)
    (hfull : old_internal.num_keys = f)
    (hklen : old_internal.keys.length = f)
    (hclen : old_internal.children.length = f + 1)
    (hsorted : old_internal.keys.Pairwise (· < ·))
    (hnew : nk ∉ old_internal.keys)
    (hs : s = f / 2)
    (hpos : pos = insertScan nk old_internal.keys)
    (hm : merged
      = old_internal.keys.take pos ++ nk :: old_internal.keys.drop pos)
    (hmc : mergedC = old_internal.children.take (pos + 1)
      ++ nc :: old_internal.children.drop (pos + 1))
    (hor : old2 = (split_internal_compute f old_internal nk nc addr).1)
    (hnr : newI = (split_internal_compute f old_internal nk nc addr).2.1)
    (hpr : promoted
      = (split_internal_compute f old_internal nk nc addr).2.2) :
    merged.Pairwise (· < ·) ∧
    merged.Perm (nk :: old_internal.keys) ∧
    promoted = merged.getD s 0 ∧
    old2.num_keys = s ∧
    old2.keys.take s = merged.take s ∧
    old2.children.take (s + 1) = mergedC.take (s + 1) ∧
    newI.num_keys = f - s ∧
    newI.keys.take (f - s) = merged.drop (s + 1) ∧
    newI.children.take (f - s + 1) = mergedC.drop (s + 1) ∧
    (∀ k ∈ old2.keys.take s, k < promoted) ∧
    (∀ k ∈ newI.keys.take (f - s), promoted < k) ∧
    promoted ∉ old2.keys.take s ∧
    promoted ∉ newI.keys.take (f - s) := by
  have htake : old_internal.keys.take old_internal.num_keys
      = old_internal.keys := by
    rw [hfull, ← hklen]
    exact List.take_length old_internal.keys
  have hpos_le : pos ≤ f := by
    rw [hpos, ← hklen]
    exact insertScan_le nk old_internal.keys
  have hmlen : merged.length = f + 1 := by
    rw [hm]
    simp [List.length_take, List.length_drop, hklen]
    omega
  have hmclen : mergedC.length = f + 2 := by
    rw [hmc]
    simp [List.length_take, List.length_drop, hclen]
    omega
  have hsl : s < merged.length := by
    rw [hmlen, hs]
    omega
  have hall_keys : assembleInsert old_internal.keys old_internal.num_keys
      (insertScan nk (old_internal.keys.take old_internal.num_keys)) nk
      (f + 1) = merged := by
    rw [htake, hfull, ← hpos, hm]
    exact assembleInsert_full old_internal.keys f pos nk hklen hpos_le
  have hall_children : assembleInsert old_internal.children
      (old_internal.num_keys + 1)
      (insertScan nk (old_internal.keys.take old_internal.num_keys) + 1) nc
      (f + 2) = mergedC := by
    rw [htake, hfull, ← hpos, hmc]
    exact assembleInsert_children old_internal.children f pos nc hclen
      hpos_le
  have heval : split_internal_compute f old_internal nk nc addr =
      ({ old_internal with
          num_keys := f / 2,
          keys := overwriteTo old_internal.keys merged (f / 2),
          children := overwriteTo old_internal.children mergedC
            (f / 2 + 1) },
       { BTreeNode.init f with
          node_address := addr
          is_leaf := false
          num_keys := f - f / 2
          keys := overwriteTo (BTreeNode.init f).keys
            (merged.drop (f / 2 + 1)) (f - f / 2)
          children := overwriteTo (BTreeNode.init f).children
            (mergedC.drop (f / 2 + 1)) (f - f / 2 + 1) },
       merged.getD (f / 2) 0) := by
    simp only [split_internal_compute]
    rw [hall_keys, hall_children]
  have hmsorted : merged.Pairwise (· < ·) := by
    rw [hm, hpos]
    exact insert_sorted nk old_internal.keys hsorted hnew
  have hdrop_len : (merged.drop (s + 1)).length = f - s := by
    rw [List.length_drop, hmlen]
    omega
  have hdrop_lenc : (mergedC.drop (s + 1)).length = f - s + 1 := by
    rw [List.length_drop, hmclen]
    omega
  have hprom : promoted = merged.getD s 0 := by
    rw [hpr, heval, hs]
  have hold_keys : old2.keys.take s = merged.take s := by
    rw [hor, heval, hs]
    exact overwriteTo_take _ _ _ (by rw [hmlen]; omega)
  have hnew_keys : newI.keys.take (f - s) = merged.drop (s + 1) := by
    rw [hnr, heval, hs]
    have := overwriteTo_take (BTreeNode.init f).keys
      (merged.drop (f / 2 + 1)) (f - f / 2) (by rw [← hs, hdrop_len])
    rw [this, ← hs, List.take_of_length_le (by rw [hdrop_len])]
  refine ⟨hmsorted, ?_, hprom, ?_, hold_keys, ?_, ?_, hnew_keys, ?_,
    ?_, ?_, ?_, ?_⟩
  · rw [hm, hpos]
    exact insert_perm nk old_internal.keys (insertScan nk old_internal.keys)
  · rw [hor, heval, hs]
  · rw [hor, heval, hs]
    exact overwriteTo_take _ _ _ (by rw [hmclen]; omega)
  · rw [hnr, heval, hs]
  · rw [hnr, heval, hs]
    have := overwriteTo_take (BTreeNode.init f).children
      (mergedC.drop (f / 2 + 1)) (f - f / 2 + 1) (by rw [← hs, hdrop_lenc])
    rw [this, ← hs, List.take_of_length_le (by rw [hdrop_lenc])]
  · intro k hk
    rw [hprom]
    rw [hold_keys] at hk
    exact mem_take_lt_sep merged hmsorted s hsl k hk
  · intro k hk
    rw [hprom]
    rw [hnew_keys] at hk
    exact mem_drop_gt_sep merged hmsorted s hsl k hk
  · intro hmem
    rw [hold_keys] at hmem
    exact absurd hprom
      (Nat.ne_of_lt (mem_take_lt_sep merged hmsorted s hsl promoted hmem))
  · intro hmem
    rw [hnew_keys] at hmem
    have := mem_drop_gt_sep merged hmsorted s hsl promoted hmem
    omega

/-- C4 counterexample: the claim fails without excluding duplicates — with
fanout 4, the full sorted internal node with keys [1,2,3,4] and the
(already present) incoming separator 2, the promoted key is 2 and the old
node still stores 2 in its key prefix [1,2]. -/
theorem split_internal_counterexample :
    List.Pairwise (· < ·) [1, 2, 3, 4] ∧
    (split_internal_compute 4
      { keys := [1, 2, 3, 4], values := [0, 0, 0, 0],
        children := [100, 200, 300, 400, 500], num_keys := 4, fanout := 4,
        is_leaf := false, node_address := 1 } 2 600 888).2.2 = 2 ∧
    2 ∈ ((split_internal_compute 4
      { keys := [1, 2, 3, 4], values := [0, 0, 0, 0],
        children := [100, 200, 300, 400, 500], num_keys := 4, fanout := 4,
        is_leaf := false, node_address := 1 } 2 600 888).1).keys.take 2 := by
  refine ⟨by decide, by decide, by decide⟩

/-- C4 witness: splitting the full internal node [1,2,3,4] with children
[100..500] on the fresh separator 5 and child 600 promotes 3, keeps keys
[1,2] and children [100,200,300] on the left and gives keys [4,5] with
children [400,500,600] to the new node. -/
theorem split_internal_correct_witness :
    (List.Pairwise (· < ·) [1, 2, 3, 4] ∧ (5 : Nat) ∉ [1, 2, 3, 4]) ∧
    (split_internal_compute 4
      { keys := [1, 2, 3, 4], values := [0, 0, 0, 0],
        children := [100, 200, 300, 400, 500], num_keys := 4, fanout := 4,
        is_leaf := false, node_address := 1 } 5 600 888).2.2 = 3 ∧
    (split_internal_compute 4
      { keys := [1, 2, 3, 4], values := [0, 0, 0, 0],
        children := [100, 200, 300, 400, 500], num_keys := 4, fanout := 4,
        is_leaf := false, node_address := 1 } 5 600 888).1.keys.take 2
      = [1, 2] ∧
    (split_internal_compute 4
      { keys := [1, 2, 3, 4], values := [0, 0, 0, 0],
        children := [100, 200, 300, 400, 500], num_keys := 4, fanout := 4,
        is_leaf := false, node_address := 1 } 5 600 888).1.children.take 3
      = [100, 200, 300] ∧
    (split_internal_compute 4
      { keys := [1, 2, 3, 4], values := [0, 0, 0, 0],
        children := [100, 200, 300, 400, 500], num_keys := 4, fanout := 4,
        is_leaf := false, node_address := 1 } 5 600 888).2.1.keys.take 2
      = [4, 5] ∧
    (split_internal_compute 4
      { keys := [1, 2, 3, 4], values := [0, 0, 0, 0],
        children := [100, 200, 300, 400, 500], num_keys := 4, fanout := 4,
        is_leaf := false, node_address := 1 } 5 600 888).2.1.children.take 3
      = [400, 500, 600] := by
  have h := split_internal_correct 4
    { keys := [1, 2, 3, 4], values := [0, 0, 0, 0],
      children := [100, 200, 300, 400, 500], num_keys := 4, fanout := 4,
      is_leaf := false, node_address := 1 }
    5 600 888 2 4 [1, 2, 3, 4, 5] [100, 200, 300, 400, 500, 600]
    (split_internal_compute 4
      { keys := [1, 2, 3, 4], values := [0, 0, 0, 0],
        children := [100, 200, 300, 400, 500], num_keys := 4, fanout := 4,
        is_leaf := false, node_address := 1 } 5 600 888).1
    (split_internal_compute 4
      { keys := [1, 2, 3, 4], values := [0, 0, 0, 0],
        children := [100, 200, 300, 400, 500], num_keys := 4, fanout := 4,
        is_leaf := false, node_address := 1 } 5 600 888).2.1
    (split_internal_compute 4
      { keys := [1, 2, 3, 4], values := [0, 0, 0, 0],
        children := [100, 200, 300, 400, 500], num_keys := 4, fanout := 4,
        is_leaf := false, node_address := 1 } 5 600 888).2.2
    rfl rfl rfl (by decide) (by decide) rfl rfl rfl rfl rfl rfl rfl
  refine ⟨⟨by decide, by decide⟩, ?_, ?_, ?_, ?_, ?_⟩
  · rw [h.2.2.1] <;> decide
  · rw [h.2.2.2.2.1] <;> decide
  · rw [h.2.2.2.2.2.1] <;> decide
  · rw [h.2.2.2.2.2.2.2.1] <;> decide
  · rw [h.2.2.2.2.2.2.2.2.1] <;> decide

theorem allocate_eval0 (n : Nat) :
    allocate_node_address 2 3 4 n 0 = 268435456 + n % 2 * 16777216 := by
  simp [allocate_node_address, MEMORY_BASE_ADDRESS, MEMORY_SERVER_SIZE]

theorem allocate_eval1 (n : Nat) :
    allocate_node_address 2 3 4 n 1
      = 268435456 + n % 2 * 16777216 + (65536 + n % 10000 * 121) := by
  simp [allocate_node_address, MEMORY_BASE_ADDRESS, MEMORY_SERVER_SIZE,
    BTREE_LEVEL1_OFFSET, get_serialized_node_size]

theorem allocate_eval2 (n : Nat) :
    allocate_node_address 2 3 4 n 2
      = 268435456 + n % 2 * 16777216 + (2097152 + n % 100000 * 121) := by
  simp [allocate_node_address, MEMORY_BASE_ADDRESS, MEMORY_SERVER_SIZE,
    BTREE_LEAF_OFFSET, get_serialized_node_size]

/-- C6 counterexample: address allocation is NOT collision-free — in the
scenario configuration (2 memory nodes, tree height 3, fanout 4) the
distinct pairs (node id 0, level 1) and (node id 20000, level 1) receive
the same remote address, because the allocator wraps node ids modulo 10000
within a level band and modulo 2 across slabs. -/
theorem allocate_node_address_collision :
    (0 : Nat) ≠ 20000 ∧
    allocate_node_address 2 3 4 0 1 = allocate_node_address 2 3 4 20000 1 := by
  constructor
  · decide
  · rfl

set_option maxHeartbeats 1000000 in
/-- C6 (amended): in the scenario configuration (2 memory nodes, tree
height 3, fanout 4, node size 121), allocate_node_address is injective on
(node_id, level) pairs with levels below 3 provided same-level pairs have
node ids in distinct residue classes of the level's wrap modulus (2 at the
root level, 10000 at internal level 1, 100000 at the leaf level);
cross-level pairs always get distinct addresses.  Moreover every allocated
address lies in its slab (chosen by node_id mod 2) inside the region of its
level: offset 0 for the root level, [0x10000, 0x200000) for level 1,
[0x200000, 0x1000000) for leaves — the level-1 region is wider than the
64 KiB band the source comments document. -/
theorem allocate_node_address_injective_banded (n1 l1 n2 l2 : Nat)
    (h1 : l1 < 3) (h2 : l2 < 3)
    (hsame : l1 = l2 →
      (l1 = 0 → n1 % 2 ≠ n2 % 2) ∧
      (l1 = 1 → n1 % 10000 ≠ n2 % 10000) ∧
      (l1 = 2 → n1 % 100000 ≠ n2 % 100000)) :
    allocate_node_address 2 3 4 n1 l1 ≠ allocate_node_address 2 3 4 n2 l2 ∧
    (l1 = 0 →
      allocate_node_address 2 3 4 n1 l1
        = MEMORY_BASE_ADDRESS + n1 % 2 * MEMORY_SERVER_SIZE) ∧
    (l1 = 1 →
      MEMORY_BASE_ADDRESS + n1 % 2 * MEMORY_SERVER_SIZE + 0x10000
          ≤ allocate_node_address 2 3 4 n1 l1 ∧
        allocate_node_address 2 3 4 n1 l1
          < MEMORY_BASE_ADDRESS + n1 % 2 * MEMORY_SERVER_SIZE + 0x200000) ∧
    (l1 = 2 →
      MEMORY_BASE_ADDRESS + n1 % 2 * MEMORY_SERVER_SIZE + 0x200000
          ≤ allocate_node_address 2 3 4 n1 l1 ∧
        allocate_node_address 2 3 4 n1 l1
          < MEMORY_BASE_ADDRESS + n1 % 2 * MEMORY_SERVER_SIZE
            + MEMORY_SERVER_SIZE) := by
  refine ⟨?_, ?_, ?_, ?_⟩
  · intro heq
    interval_cases l1 <;> interval_cases l2
    · rw [allocate_eval0, allocate_eval0] at heq
      have hd := (hsame rfl).1 rfl
      omega
    · rw [allocate_eval0, allocate_eval1] at heq
      omega
    · rw [allocate_eval0, allocate_eval2] at heq
      omega
    · rw [allocate_eval1, allocate_eval0] at heq
      omega
    · rw [allocate_eval1, allocate_eval1] at heq
      have hd := (hsame rfl).2.1 rfl
      omega
    · rw [allocate_eval1, allocate_eval2] at heq
      omega
    · rw [allocate_eval2, allocate_eval0] at heq
      omega
    · rw [allocate_eval2, allocate_eval1] at heq
      omega
    · rw [allocate_eval2, allocate_eval2] at heq
      have hd := (hsame rfl).2.2 rfl
      omega
  · intro hl
    subst hl
    rw [allocate_eval0]
    rfl
  · intro hl
    subst hl
    rw [allocate_eval1]
    unfold MEMORY_BASE_ADDRESS MEMORY_SERVER_SIZE
    omega
  · intro hl
    subst hl
    rw [allocate_eval2]
    unfold MEMORY_BASE_ADDRESS MEMORY_SERVER_SIZE
    omega

/-- C6 witness: node ids 1 and 3 at level 1 (distinct modulo 10000) receive
distinct addresses. -/
theorem allocate_node_address_injective_banded_witness :
    ((1 : Nat) < 3 ∧ (3 : Nat) % 10000 ≠ 1 % 10000) ∧
    allocate_node_address 2 3 4 3 1 ≠ allocate_node_address 2 3 4 1 1 :=
  ⟨⟨by decide, by decide⟩,
    (allocate_node_address_injective_banded 3 1 1 1 (by decide) (by decide)
      (by decide)).1⟩

theorem write_node_back_meta (cfg : EngineConfig) (s : EngineState)
    (node : BTreeNode) :
    (write_node_back cfg s node).1.tree_height = s.tree_height ∧
    (write_node_back cfg s node).1.root_address = s.root_address :=
  ⟨rfl, rfl⟩

theorem split_leaf_async_meta (cfg : EngineConfig) (s : EngineState)
    (op : AsyncOperation) (old_leaf : BTreeNode) (nk nv : Nat) :
    (split_leaf_async cfg s op old_leaf nk nv).1.tree_height = s.tree_height ∧
    (split_leaf_async cfg s op old_leaf nk nv).1.root_address
      = s.root_address := by
  simp only [split_leaf_async]
  split <;> first
    | exact ⟨rfl, rfl⟩
    | (split <;> exact ⟨rfl, rfl⟩)

theorem split_internal_async_meta (cfg : EngineConfig) (s : EngineState)
    (op : AsyncOperation) (old_internal : BTreeNode) (nk nc : Nat) :
    (split_internal_async cfg s op old_internal nk nc).1.tree_height
      = s.tree_height ∧
    (split_internal_async cfg s op old_internal nk nc).1.root_address
      = s.root_address := by
  simp only [split_internal_async]
  split <;> first
    | exact ⟨rfl, rfl⟩
    | (split <;> exact ⟨rfl, rfl⟩)

theorem handle_leaf_operation_meta (cfg : EngineConfig) (s : EngineState)
    (op : AsyncOperation) (leaf : BTreeNode) :
    (handle_leaf_operation cfg s op leaf).1.tree_height = s.tree_height ∧
    (handle_leaf_operation cfg s op leaf).1.root_address = s.root_address := by
  unfold handle_leaf_operation
  cases op.type with
  | INSERT =>
    simp only []
    split
    · exact write_node_back_meta cfg s _
    · exact split_leaf_async_meta cfg s op leaf op.key op.value
  | TRAVERSAL => exact ⟨rfl, rfl⟩
  | SEARCH => exact ⟨rfl, rfl⟩
  | DELETE => exact ⟨rfl, rfl⟩
  | SPLIT_LEAF => exact ⟨rfl, rfl⟩
  | SPLIT_INTERNAL => exact ⟨rfl, rfl⟩
  | UPDATE_PARENT => exact ⟨rfl, rfl⟩

theorem read_parent_insert_meta (cfg : EngineConfig) (s : EngineState)
    (req_id : Nat) (parent : BTreeNode) (op : AsyncOperation) :
    (read_parent_insert cfg s req_id parent op).1.tree_height
      = s.tree_height ∧
    (read_parent_insert cfg s req_id parent op).1.root_address
      = s.root_address := by
  unfold read_parent_insert
  split
  · exact ⟨rfl, rfl⟩
  · have h := split_internal_async_meta cfg s op parent op.separator_key
      op.new_node.node_address
    exact ⟨h.1, h.2⟩

theorem handle_read_response_meta (cfg : EngineConfig) (s : EngineState)
    (req_id : Nat) (data : List Nat) :
    (handle_read_response cfg s req_id data).1.tree_height = s.tree_height ∧
    (handle_read_response cfg s req_id data).1.root_address
      = s.root_address := by
  unfold handle_read_response
  cases hlk : s.pending_ops req_id with
  | none => exact ⟨rfl, rfl⟩
  | some op =>
    simp only []
    split
    · -- READ_PARENT branch
      split
      · split
        · exact read_parent_insert_meta cfg s req_id _ _
        · exact ⟨rfl, rfl⟩
      · exact read_parent_insert_meta cfg s req_id _ _
    · -- regular traversal branch
      split
      · -- leaf handler, possibly followed by the erase of the read entry
        split
        · have h := handle_leaf_operation_meta cfg s
            { op with path := op.path ++ [deserialize_node cfg.btree_fanout data] }
            (deserialize_node cfg.btree_fanout data)
          exact ⟨h.1, h.2⟩
        · exact handle_leaf_operation_meta cfg s _ _
      · exact ⟨rfl, rfl⟩

theorem handle_split_response_root (cfg : EngineConfig) (s : EngineState)
    (op : AsyncOperation) (hph : op.split_phase = .WRITE_NEW_NODE)
    (hrs : op.is_root_split = true) :
    handle_split_response cfg s op =
      ({ s with
          next_node_id := s.next_node_id + 1
          next_req_id := s.next_req_id + 1
          root_address := allocate_node_address cfg.num_memory_nodes
            s.tree_height cfg.btree_fanout s.next_node_id 0
          tree_height := s.tree_height + 1 },
       [NetRequest.write
         (allocate_node_address cfg.num_memory_nodes s.tree_height
           cfg.btree_fanout s.next_node_id 0)
         (get_serialized_node_size cfg.btree_fanout)
         (serialize_node cfg.btree_fanout
           { BTreeNode.init cfg.btree_fanout with
              node_address := allocate_node_address cfg.num_memory_nodes
                s.tree_height cfg.btree_fanout s.next_node_id 0
              is_leaf := false
              num_keys := 1
              keys := (BTreeNode.init cfg.btree_fanout).keys.set 0
                op.separator_key
              children := ((BTreeNode.init cfg.btree_fanout).children.set 0
                op.old_node.node_address).set 1 op.new_node.node_address })
         s.next_req_id]) := by
  unfold handle_split_response
  rw [hph]
  simp only [hrs, if_true]

theorem handle_split_response_meta (cfg : EngineConfig) (s : EngineState)
    (op : AsyncOperation) :
    ((handle_split_response cfg s op).1.tree_height = s.tree_height ∧
      (handle_split_response cfg s op).1.root_address = s.root_address) ∨
    (op.split_phase = .WRITE_NEW_NODE ∧ op.is_root_split = true ∧
      (handle_split_response cfg s op).1.tree_height = s.tree_height + 1 ∧
      (handle_split_response cfg s op).1.root_address
        = allocate_node_address cfg.num_memory_nodes s.tree_height
            cfg.btree_fanout s.next_node_id 0) := by
  cases hph : op.split_phase with
  | WRITE_NEW_NODE =>
    cases hrs : op.is_root_split with
    | true =>
      right
      refine ⟨rfl, rfl, ?_, ?_⟩ <;>
        rw [handle_split_response_root cfg s op hph hrs]
    | false =>
      left
      simp only [handle_split_response, hph, hrs, Bool.false_eq_true,
        if_false]
      split
      · exact ⟨rfl, rfl⟩
      · exact ⟨rfl, rfl⟩
  | WRITE_OLD_NODE =>
    left
    simp only [handle_split_response, hph]
    constructor <;> trivial
  | NONE =>
    left
    simp only [handle_split_response, hph]
    constructor <;> trivial
  | READ_PARENT =>
    left
    simp only [handle_split_response, hph]
    constructor <;> trivial
  | UPDATE_PARENT_NODE =>
    left
    simp only [handle_split_response, hph]
    constructor <;> trivial

theorem handle_write_response_meta (cfg : EngineConfig) (s : EngineState)
    (req_id : Nat) :
    ((handle_write_response cfg s req_id).1.tree_height = s.tree_height ∧
      (handle_write_response cfg s req_id).1.root_address
        = s.root_address) ∨
    (∃ op, s.pending_ops req_id = some op ∧
      (op.type = .SPLIT_LEAF ∨ op.type = .SPLIT_INTERNAL) ∧
      op.split_phase = .WRITE_NEW_NODE ∧ op.is_root_split = true ∧
      handle_write_response cfg s req_id =
        ({ (handle_split_response cfg s op).1 with
            pending_ops := updMap
              (handle_split_response cfg s op).1.pending_ops req_id none },
         (handle_split_response cfg s op).2) ∧
      (handle_write_response cfg s req_id).1.tree_height
        = s.tree_height + 1 ∧
      (handle_write_response cfg s req_id).1.root_address
        = allocate_node_address cfg.num_memory_nodes s.tree_height
            cfg.btree_fanout s.next_node_id 0) := by
  unfold handle_write_response
  cases hlk : s.pending_ops req_id with
  | none => exact Or.inl ⟨rfl, rfl⟩
  | some op =>
    simp only []
    split
    · rename_i htype
      rcases handle_split_response_meta cfg s op with ⟨h1, h2⟩ | ⟨hph, hrs, h1, h2⟩
      · exact Or.inl ⟨h1, h2⟩
      · exact Or.inr ⟨op, rfl, htype, hph, hrs, rfl, h1, h2⟩
    · exact Or.inl ⟨rfl, rfl⟩

theorem stepEvent_height_mono (cfg : EngineConfig) (s : EngineState)
    (e : EngineEvent) :
    s.tree_height ≤ (stepEvent cfg s e).1.tree_height := by
  cases e with
  | readResp req_id data =>
    show s.tree_height ≤ (handle_read_response cfg s req_id data).1.tree_height
    rw [(handle_read_response_meta cfg s req_id data).1]
  | writeResp req_id =>
    show s.tree_height ≤ (handle_write_response cfg s req_id).1.tree_height
    rcases handle_write_response_meta cfg s req_id with
      ⟨h1, _⟩ | ⟨_, _, _, _, _, _, h1, _⟩
    · rw [h1]
    · rw [h1]
      omega
  | startInsert k v => exact Nat.le_refl _
  | startSearch k => exact Nat.le_refl _

theorem runEvents_height_mono (cfg : EngineConfig) (evs : List EngineEvent)
    (s : EngineState) :
    s.tree_height ≤ (runEvents cfg s evs).tree_height := by
  induction evs generalizing s with
  | nil => exact Nat.le_refl _
  | cons e es ih =>
    calc s.tree_height ≤ (stepEvent cfg s e).1.tree_height :=
        stepEvent_height_mono cfg s e
      _ ≤ (runEvents cfg (stepEvent cfg s e).1 es).tree_height :=
        ih (stepEvent cfg s e).1
      _ = (runEvents cfg s (e :: es)).tree_height := rfl

theorem replicate_set_getD0 (f x : Nat) (h : 1 ≤ f) :
    ((List.replicate f 0).set 0 x).getD 0 0 = x := by
  match f, h with
  | k + 1, _ => rfl

theorem children_set_getD0 (f a b : Nat) :
    (((List.replicate (f + 1) 0).set 0 a).set 1 b).getD 0 0 = a := rfl

theorem children_set_getD1 (f a b : Nat) (h : 1 ≤ f) :
    (((List.replicate (f + 1) 0).set 0 a).set 1 b).getD 1 0 = b := by
  match f, h with
  | k + 1, _ => rfl

/-- C7: across every engine event, tree_height never decreases (also over
arbitrary event sequences), and root_address or tree_height change only
when a write completion finishes the WRITE_NEW_NODE phase of a pending
root-split operation; then the engine emits the write of a new internal
root holding exactly the separator key with children[0] the (re-addressed)
old half and children[1] the new node, sets root_address to that root's
freshly allocated address, and increments tree_height by exactly 1. -/
theorem root_promotion_monotonic (cfg : EngineConfig) (s : EngineState)
    (e : EngineEvent) (s2 : EngineState) (out : List NetRequest)
    (h : stepEvent cfg s e = (s2, out)) :
    s.tree_height ≤ s2.tree_height ∧
    (∀ evs : List EngineEvent,
      s.tree_height ≤ (runEvents cfg s evs).tree_height) ∧
    ((s2.root_address ≠ s.root_address ∨ s2.tree_height ≠ s.tree_height) →
      ∃ req_id op, e = .writeResp req_id ∧
        s.pending_ops req_id = some op ∧
        (op.type = .SPLIT_LEAF ∨ op.type = .SPLIT_INTERNAL) ∧
        op.split_phase = .WRITE_NEW_NODE ∧
        op.is_root_split = true ∧
        s2.tree_height = s.tree_height + 1 ∧
        s2.root_address = allocate_node_address cfg.num_memory_nodes
          s.tree_height cfg.btree_fanout s.next_node_id 0 ∧
        out = [NetRequest.write
          (allocate_node_address cfg.num_memory_nodes s.tree_height
            cfg.btree_fanout s.next_node_id 0)
          (get_serialized_node_size cfg.btree_fanout)
          (serialize_node cfg.btree_fanout
            { BTreeNode.init cfg.btree_fanout with
                node_address := allocate_node_address cfg.num_memory_nodes
                  s.tree_height cfg.btree_fanout s.next_node_id 0
                is_leaf := false
                num_keys := 1
                keys := (BTreeNode.init cfg.btree_fanout).keys.set 0
                  op.separator_key
                children := ((BTreeNode.init cfg.btree_fanout).children.set 0
                  op.old_node.node_address).set 1 op.new_node.node_address })
          s.next_req_id] ∧
        (1 ≤ cfg.btree_fanout →
          ((BTreeNode.init cfg.btree_fanout).keys.set 0
            op.separator_key).getD 0 0 = op.separator_key ∧
          (((BTreeNode.init cfg.btree_fanout).children.set 0
            op.old_node.node_address).set 1
              op.new_node.node_address).getD 0 0
            = op.old_node.node_address ∧
          (((BTreeNode.init cfg.btree_fanout).children.set 0
            op.old_node.node_address).set 1
              op.new_node.node_address).getD 1 0
            = op.new_node.node_address)) := by
  have h1 : (stepEvent cfg s e).1 = s2 := by rw [h]
  refine ⟨?_, fun evs => runEvents_height_mono cfg evs s, ?_⟩
  · rw [← h1]
    exact stepEvent_height_mono cfg s e
  · intro hch
    cases e with
    | readResp req_id data =>
      have hm := handle_read_response_meta cfg s req_id data
      have hth : s2.tree_height = s.tree_height := by
        rw [← h1]
        exact hm.1
      have hra : s2.root_address = s.root_address := by
        rw [← h1]
        exact hm.2
      rcases hch with hc | hc
      · exact absurd hra hc
      · exact absurd hth hc
    | startInsert k v =>
      have hth : s2.tree_height = s.tree_height := by
        rw [← h1]
        rfl
      have hra : s2.root_address = s.root_address := by
        rw [← h1]
        rfl
      rcases hch with hc | hc
      · exact absurd hra hc
      · exact absurd hth hc
    | startSearch k =>
      have hth : s2.tree_height = s.tree_height := by
        rw [← h1]
        rfl
      have hra : s2.root_address = s.root_address := by
        rw [← h1]
        rfl
      rcases hch with hc | hc
      · exact absurd hra hc
      · exact absurd hth hc
    | writeResp req_id =>
      rcases handle_write_response_meta cfg s req_id with
        ⟨hm1, hm2⟩ | ⟨op, hlk, htype, hph, hrs, heq, hh, hr⟩
      · have hth : s2.tree_height = s.tree_height := by
          rw [← h1]
          exact hm1
        have hra : s2.root_address = s.root_address := by
          rw [← h1]
          exact hm2
        rcases hch with hc | hc
        · exact absurd hra hc
        · exact absurd hth hc
      · refine ⟨req_id, op, rfl, hlk, htype, hph, hrs, ?_, ?_, ?_, ?_⟩
        · rw [← h1]
          exact hh
        · rw [← h1]
          exact hr
        · have hout : (handle_write_response cfg s req_id).2 = out :=
            congrArg Prod.snd h
          rw [← hout, heq]
          show (handle_split_response cfg s op).2 = _
          rw [handle_split_response_root cfg s op hph hrs]
        · intro hf
          exact ⟨replicate_set_getD0 cfg.btree_fanout op.separator_key hf,
            children_set_getD0 _ _ _,
            children_set_getD1 _ _ _ hf⟩

/-- C7 witness: completing the WRITE_NEW_NODE phase of a pending root split
(fanout 4, two memory nodes, separator 3) bumps the tree height from 1 to 2
and moves the root to the freshly allocated level-0 address 0x11000000. -/
theorem root_promotion_monotonic_witness :
    (stepEvent { btree_fanout := 4, num_memory_nodes := 2 }
      { root_address := 0x10000000, tree_height := 1, next_node_id := 3,
        pending_ops := fun r =>
          if r = 55 then
            some { AsyncOperation.init with
              type := .SPLIT_LEAF
              split_phase := .WRITE_NEW_NODE
              is_root_split := true
              separator_key := 3
              old_node := { BTreeNode.init 4 with
                node_address := 0x10200000 }
              new_node := { BTreeNode.init 4 with
                node_address := 0x11200000 } }
          else none,
        parent_map := fun _ => none, next_req_id := 200 }
      (.writeResp 55)).1.tree_height = 2 ∧
    (stepEvent { btree_fanout := 4, num_memory_nodes := 2 }
      { root_address := 0x10000000, tree_height := 1, next_node_id := 3,
        pending_ops := fun r =>
          if r = 55 then
            some { AsyncOperation.init with
              type := .SPLIT_LEAF
              split_phase := .WRITE_NEW_NODE
              is_root_split := true
              separator_key := 3
              old_node := { BTreeNode.init 4 with
                node_address := 0x10200000 }
              new_node := { BTreeNode.init 4 with
                node_address := 0x11200000 } }
          else none,
        parent_map := fun _ => none, next_req_id := 200 }
      (.writeResp 55)).1.root_address = 0x11000000 := by
  have h := root_promotion_monotonic
    { btree_fanout := 4, num_memory_nodes := 2 }
    { root_address := 0x10000000, tree_height := 1, next_node_id := 3,
      pending_ops := fun r =>
        if r = 55 then
          some { AsyncOperation.init with
            type := .SPLIT_LEAF
            split_phase := .WRITE_NEW_NODE
            is_root_split := true
            separator_key := 3
            old_node := { BTreeNode.init 4 with
              node_address := 0x10200000 }
            new_node := { BTreeNode.init 4 with
              node_address := 0x11200000 } }
        else none,
      parent_map := fun _ => none, next_req_id := 200 }
    (.writeResp 55)
    (stepEvent { btree_fanout := 4, num_memory_nodes := 2 }
      { root_address := 0x10000000, tree_height := 1, next_node_id := 3,
        pending_ops := fun r =>
          if r = 55 then
            some { AsyncOperation.init with
              type := .SPLIT_LEAF
              split_phase := .WRITE_NEW_NODE
              is_root_split := true
              separator_key := 3
              old_node := { BTreeNode.init 4 with
                node_address := 0x10200000 }
              new_node := { BTreeNode.init 4 with
                node_address := 0x11200000 } }
          else none,
        parent_map := fun _ => none, next_req_id := 200 }
      (.writeResp 55)).1
    (stepEvent { btree_fanout := 4, num_memory_nodes := 2 }
      { root_address := 0x10000000, tree_height := 1, next_node_id := 3,
        pending_ops := fun r =>
          if r = 55 then
            some { AsyncOperation.init with
              type := .SPLIT_LEAF
              split_phase := .WRITE_NEW_NODE
              is_root_split := true
              separator_key := 3
              old_node := { BTreeNode.init 4 with
                node_address := 0x10200000 }
              new_node := { BTreeNode.init 4 with
                node_address := 0x11200000 } }
          else none,
        parent_map := fun _ => none, next_req_id := 200 }
      (.writeResp 55)).2
    rfl
  rcases h.2.2 (Or.inr (by decide)) with
    ⟨rid, op, hev, hlk, htype, hph, hrs, hh, hr, hout, hgd⟩
  constructor
  · rw [hh]
  · rw [hr]
    rfl

end RdmaBTree
